import Mathlib

/-!
# Ledger HID transport (`os_io_usb.c`): segmentation and reassembly of APDUs

A shallow embedding of `io_usb_hid_receive`, `io_usb_hid_init`, `io_usb_hid_sent`,
`io_usb_hid_send` and the single-chunk primitive `io_usb_send_ep`.  The five `G_io_usb_hid_*` globals, the scratch buffer
`G_io_usb_ep_buffer`, `G_io_app.apdu_state`, the byte-addressed memory that the cursor points
into and the log of the calls made to the `sndfct` callback are the fields of one explicit
state that every operation transforms.

Conventions.
* A byte is a `Fin 256`; `unsigned int` values are naturals below `2^32` and `unsigned short`
  values naturals below `2^16`.  Increments are reduced modulo the width, subtractions wrap
  on underflow.
* A pointer is an address (a natural number); `NULL` is address `0`.
* The scratch buffer is an object of its own: it is a list, not a region of `mem`.  A read
  past the end of a list yields `0` and a write past its end is dropped.
-/

namespace OsIoUsb

/-- One octet. -/
abbrev Byte := Fin 256

/-- Conversion of an integer to `unsigned char` (keeps the low eight bits). -/
def byte (n : Nat) : Byte := ⟨n % 256, Nat.mod_lt n (by decide)⟩

/-- Read `buf[i]`; a read past the end yields `0`. -/
def nth (buf : List Byte) (i : Nat) : Byte := buf.getD i 0

/-- Subtraction `a - b` on `unsigned short`: wraps by `2^16` when `a < b`. -/
def sub_u16 (a b : Nat) : Nat := if a < b then a + 65536 - b else a - b

/-- Subtraction `a - b` on `unsigned int` / `size_t`: wraps by `2^32` when `a < b`. -/
def sub_u32 (a b : Nat) : Nat := if a < b then a + 4294967296 - b else a - b

/-- The statement `if (l > bound) { l = bound; }`, giving the new value of `l`. -/
def clamp (l bound : Nat) : Nat := if l > bound then bound else l

/-- Modelled from the spec: the macro `U2BE` of `os_utils.h`, which is not part of this file;
all header fields are big endian, so `U2BE(buf, off)` is `(buf[off] << 8) | buf[off+1]`. -/
def U2BE (buf : List Byte) (off : Nat) : Nat :=
  (nth buf off).val * 256 + (nth buf (off + 1)).val

/-- The `n` bytes of `buf` that start at offset `off`. -/
def slice (buf : List Byte) (off n : Nat) : List Byte :=
  (List.range n).map fun i => nth buf (off + i)

/-- Store one byte: `buf[i] = v`. -/
def poke1 (buf : List Byte) (i : Nat) (v : Byte) : List Byte :=
  (List.range buf.length).map fun j => if j = i then v else nth buf j

/-- Copy into a list: `memmove(buf + off, src, src.length)`. -/
def poke (buf : List Byte) (off : Nat) (src : List Byte) : List Byte :=
  (List.range buf.length).map fun i =>
    if off ≤ i ∧ i < off + src.length then nth src (i - off) else nth buf i

/-- Copy into memory: `memmove(dst, src, src.length)`. -/
def mem_write (mem : Nat → Byte) (dst : Nat) (src : List Byte) : Nat → Byte :=
  fun a => if dst ≤ a ∧ a < dst + src.length then nth src (a - dst) else mem a

/-- The `n` bytes of memory that start at address `p`. -/
def mem_read (mem : Nat → Byte) (p n : Nat) : List Byte :=
  (List.range n).map fun i => mem (p + i)

/-- Build-time constants that are declared outside `os_io_usb.c`. -/
structure Platform where
  /-- The value of `sizeof(G_io_usb_ep_buffer)`, that is `MAX(USB_SEGMENT_SIZE, BLE_SEGMENT_SIZE)`. -/
  sizeof_ep_buffer : Nat
  /-- The constant `IO_HID_EP_LENGTH`. -/
  IO_HID_EP_LENGTH : Nat
  /-- The address of the default destination `G_io_apdu_buffer`. -/
  G_io_apdu_buffer : Nat
  /-- The value of `sizeof(G_io_apdu_buffer)`. -/
  sizeof_apdu_buffer : Nat

/-- Modelled from the spec: the enumeration behind `G_io_app.apdu_state` is declared in a header
that is not part of this file; `APDU_IDLE` is the only value `os_io_usb.c` stores. -/
inductive io_apdu_state_e where
  | APDU_IDLE
  | APDU_BUSY (medium : Nat)
  deriving DecidableEq, Repr

/-- The three results of `io_usb_hid_receive`. -/
inductive io_usb_hid_receive_status_t where
  | IO_USB_APDU_RESET
  | IO_USB_APDU_MORE_DATA
  | IO_USB_APDU_RECEIVED
  deriving DecidableEq, Repr

open io_usb_hid_receive_status_t io_apdu_state_e

/-- The caller's destination descriptor `apdu_buffer_t`. -/
structure apdu_buffer_t where
  buf : Nat
  len : Nat
  deriving DecidableEq, Repr

/-- The globals of `os_io_usb.c` with the memory and the `sndfct` log. -/
@[ext] structure State where
  G_io_usb_hid_total_length : Nat
  G_io_usb_hid_channel : Nat
  G_io_usb_hid_remaining_length : Nat
  G_io_usb_hid_sequence_number : Nat
  /-- The cursor; `0` is `NULL`. -/
  G_io_usb_hid_current_buffer : Nat
  G_io_usb_ep_buffer : List Byte
  /-- The field `G_io_app.apdu_state`. -/
  apdu_state : io_apdu_state_e
  /-- Byte-addressed memory holding the APDU buffers. -/
  mem : Nat → Byte
  /-- Buffers handed to `sndfct`, oldest first. -/
  sndfct_log : List (List Byte)

/-- One `memmove` out of the scratch buffer into memory, as `io_usb_hid_receive` performs it. -/
structure Copy where
  /-- Destination address. -/
  dst : Nat
  /-- Offset of the first byte read in `G_io_usb_ep_buffer`. -/
  src_off : Nat
  /-- Number of bytes. -/
  n : Nat
  deriving DecidableEq, Repr

/-- What a call of `io_usb_hid_receive` yields: its return value, the state it leaves, and the
`memmove` into the destination it performed, if it performed one. -/
structure Rx where
  status : io_usb_hid_receive_status_t
  st : State
  copy : Option Copy

/-- The function `io_usb_hid_init` (lines 221-225). -/
def io_usb_hid_init (s : State) : State :=
  { s with
    G_io_usb_hid_sequence_number := 0
    G_io_usb_hid_remaining_length := 0
    G_io_usb_hid_current_buffer := 0 }

/-- The call `sndfct(G_io_usb_ep_buffer, length)`. -/
def sndfct (s : State) (length : Nat) : State :=
  { s with sndfct_log := s.sndfct_log ++ [slice s.G_io_usb_ep_buffer 0 length] }

/-- The pointer `apdu_buf` chosen at lines 105-115. -/
def apdu_buf (cfg : Platform) (apdu_buffer : Option apdu_buffer_t) : Nat :=
  match apdu_buffer with
  | none => cfg.G_io_apdu_buffer
  | some b => b.buf

/-- The `uint16_t apdu_buf_len` chosen at lines 105-115. -/
def apdu_buf_len (cfg : Platform) (apdu_buffer : Option apdu_buffer_t) : Nat :=
  match apdu_buffer with
  | none => cfg.sizeof_apdu_buffer % 65536
  | some b => b.len % 65536

/-- Lines 117-121: unless the caller passed `G_io_usb_ep_buffer` itself (`buffer = none`), the
scratch buffer is cleared and receives the first `MIN(l, sizeof(G_io_usb_ep_buffer))` bytes. -/
def load (cfg : Platform) (s : State) (buffer : Option (List Byte)) (l : Nat) : State :=
  match buffer with
  | none => s
  | some b =>
    { s with
      G_io_usb_ep_buffer :=
        poke (List.replicate cfg.sizeof_ep_buffer 0) 0 (b.take (min l cfg.sizeof_ep_buffer)) }

/-- The scratch buffer as the `switch` of `io_usb_hid_receive` sees it (after lines 117-121). -/
def scratch (cfg : Platform) (s : State) (buffer : Option (List Byte)) (l : Nat) : List Byte :=
  (load cfg s buffer l).G_io_usb_ep_buffer

/-- The label `apdu_reset` (lines 216-218). -/
def apdu_reset (s : State) : Rx :=
  { status := IO_USB_APDU_RESET, st := io_usb_hid_init s, copy := none }

/-- Lines 207-214, reached after the `switch`. -/
def after_switch (s : State) (c : Option Copy) : Rx :=
  if s.G_io_usb_hid_remaining_length ≠ 0 then
    { status := IO_USB_APDU_MORE_DATA, st := s, copy := c }
  else
    { status := IO_USB_APDU_RECEIVED, st := io_usb_hid_init s, copy := c }

/-- Lines 177-181 (`factorize`), after the `memmove` of `l` bytes from offset `h`. -/
def factorize (s : State) (h l : Nat) : Rx :=
  let c : Copy := { dst := s.G_io_usb_hid_current_buffer, src_off := h, n := l }
  let s := { s with mem := mem_write s.mem s.G_io_usb_hid_current_buffer
                             (slice s.G_io_usb_ep_buffer h l) }
  let s := { s with G_io_usb_hid_current_buffer := s.G_io_usb_hid_current_buffer + l }
  let s := { s with G_io_usb_hid_remaining_length := s.G_io_usb_hid_remaining_length - l }
  let s := { s with G_io_usb_hid_sequence_number :=
                      (s.G_io_usb_hid_sequence_number + 1) % 4294967296 }
  after_switch s (some c)

/-- Lines 125-181: the `case 0x05` of the `switch`, on the loaded scratch buffer. -/
def case_data (cfg : Platform) (s : State) (l : Nat) (apdu_buffer : Option apdu_buffer_t) : Rx :=
  if U2BE s.G_io_usb_ep_buffer 3 ≠ s.G_io_usb_hid_sequence_number then
    apdu_reset s
  else
    let l := sub_u16 l (2 + 1 + 2)
    if s.G_io_usb_hid_sequence_number = 0 then
      let s := { s with G_io_usb_hid_total_length := U2BE s.G_io_usb_ep_buffer 5 }
      if s.G_io_usb_hid_total_length > apdu_buf_len cfg apdu_buffer then
        apdu_reset s
      else
        let l := sub_u16 l 2
        let s := { s with G_io_usb_hid_remaining_length := s.G_io_usb_hid_total_length }
        let s := { s with G_io_usb_hid_current_buffer := apdu_buf cfg apdu_buffer }
        let s := { s with G_io_usb_hid_channel := U2BE s.G_io_usb_ep_buffer 0 }
        let l := clamp l s.G_io_usb_hid_remaining_length
        let l := clamp l (sub_u32 cfg.sizeof_ep_buffer 7)
        factorize s 7 l
    else
      let l := clamp l s.G_io_usb_hid_remaining_length
      let l := clamp l (sub_u32 cfg.sizeof_ep_buffer 5)
      factorize s 5 l

/-- The function `io_usb_hid_receive` (lines 102-219).  `rng i` is the `i`-th byte that `cx_rng_no_throw`
produces during this call; `buffer = none` stands for a caller that passes
`G_io_usb_ep_buffer` itself, `buffer = some b` for any other buffer, of contents `b`. -/
def io_usb_hid_receive (cfg : Platform) (rng : Nat → Byte) (s : State)
    (buffer : Option (List Byte)) (l : Nat) (apdu_buffer : Option apdu_buffer_t) : Rx :=
  let s := load cfg s buffer l
  let tag := (nth s.G_io_usb_ep_buffer 2).val
  if tag = 0x05 then
    case_data cfg s l apdu_buffer
  else if tag = 0x00 then
    let s := { s with G_io_usb_ep_buffer := poke s.G_io_usb_ep_buffer 3 (List.replicate 4 0) }
    let s := sndfct s cfg.IO_HID_EP_LENGTH
    apdu_reset s
  else if tag = 0x01 then
    let s := { s with G_io_usb_ep_buffer := poke s.G_io_usb_ep_buffer 3 ((List.range 4).map rng) }
    let s := sndfct s cfg.IO_HID_EP_LENGTH
    apdu_reset s
  else if tag = 0x02 then
    let s := sndfct s cfg.IO_HID_EP_LENGTH
    apdu_reset s
  else
    after_switch s none

/-- The function `io_usb_hid_sent` (lines 230-272).  The scratch buffer is built in the local `ep` and
stored, with the advanced cursor and counters, before the call of `sndfct`. -/
def io_usb_hid_sent (cfg : Platform) (s : State) : State :=
  if s.G_io_usb_hid_remaining_length ≠ 0 ∧ s.G_io_usb_hid_current_buffer ≠ 0 then
    let ep := List.replicate cfg.sizeof_ep_buffer 0
    let ep := poke1 ep 0 (byte ((s.G_io_usb_hid_channel / 256) % 256))
    let ep := poke1 ep 1 (byte (s.G_io_usb_hid_channel % 256))
    let ep := poke1 ep 2 (byte 0x05)
    let ep := poke1 ep 3 (byte (s.G_io_usb_hid_sequence_number / 256))
    let ep := poke1 ep 4 (byte s.G_io_usb_hid_sequence_number)
    if s.G_io_usb_hid_sequence_number = 0 then
      let l := if s.G_io_usb_hid_remaining_length > sub_u32 cfg.IO_HID_EP_LENGTH 7
               then sub_u32 cfg.IO_HID_EP_LENGTH 7 else s.G_io_usb_hid_remaining_length
      let ep := poke1 ep 5 (byte (s.G_io_usb_hid_remaining_length / 256))
      let ep := poke1 ep 6 (byte s.G_io_usb_hid_remaining_length)
      let ep := poke ep 7 (mem_read s.mem s.G_io_usb_hid_current_buffer l)
      sndfct
        { s with
          G_io_usb_ep_buffer := ep
          G_io_usb_hid_current_buffer := s.G_io_usb_hid_current_buffer + l
          G_io_usb_hid_remaining_length := s.G_io_usb_hid_remaining_length - l
          G_io_usb_hid_sequence_number := (s.G_io_usb_hid_sequence_number + 1) % 4294967296 }
        cfg.sizeof_ep_buffer
    else
      let l := if s.G_io_usb_hid_remaining_length > sub_u32 cfg.IO_HID_EP_LENGTH 5
               then sub_u32 cfg.IO_HID_EP_LENGTH 5 else s.G_io_usb_hid_remaining_length
      let ep := poke ep 5 (mem_read s.mem s.G_io_usb_hid_current_buffer l)
      sndfct
        { s with
          G_io_usb_ep_buffer := ep
          G_io_usb_hid_current_buffer := s.G_io_usb_hid_current_buffer + l
          G_io_usb_hid_remaining_length := s.G_io_usb_hid_remaining_length - l
          G_io_usb_hid_sequence_number := (s.G_io_usb_hid_sequence_number + 1) % 4294967296 }
        cfg.sizeof_ep_buffer
  else
    { io_usb_hid_init s with apdu_state := APDU_IDLE }

/-- The function `io_usb_hid_send` (lines 274-283); `apdu_buffer` is the address of the APDU to send. -/
def io_usb_hid_send (cfg : Platform) (s : State) (sndlength : Nat) (apdu_buffer : Nat) : State :=
  if sndlength ≠ 0 then
    io_usb_hid_sent cfg
      { s with
        G_io_usb_hid_sequence_number := 0
        G_io_usb_hid_current_buffer := apdu_buffer
        G_io_usb_hid_remaining_length := sndlength
        G_io_usb_hid_total_length := sndlength }
  else
    s

/-! ## The two accepting paths of `case 0x05` -/

/-- The state at line 160, before the `memmove` of a first chunk: `total_length`,
`remaining_length`, the cursor and the channel were assigned at lines 138-150. -/
def first_state (cfg : Platform) (s : State) (ab : Option apdu_buffer_t) : State :=
  { s with
    G_io_usb_hid_total_length := U2BE s.G_io_usb_ep_buffer 5
    G_io_usb_hid_remaining_length := U2BE s.G_io_usb_ep_buffer 5
    G_io_usb_hid_current_buffer := apdu_buf cfg ab
    G_io_usb_hid_channel := U2BE s.G_io_usb_ep_buffer 0 }

/-- The value of `l` at line 161, for a first chunk received with length `l`. -/
def first_len (cfg : Platform) (s : State) (l : Nat) : Nat :=
  clamp (clamp (sub_u16 (sub_u16 l 5) 2) (U2BE s.G_io_usb_ep_buffer 5))
    (sub_u32 cfg.sizeof_ep_buffer 7)

/-- The value of `l` at line 175, for a continuation chunk received with length `l`. -/
def next_len (cfg : Platform) (s : State) (l : Nat) : Nat :=
  clamp (clamp (sub_u16 l 5) s.G_io_usb_hid_remaining_length) (sub_u32 cfg.sizeof_ep_buffer 5)

/-! ## The emitting path of `io_usb_hid_sent` -/

/-- The value of `l` computed at line 246 or line 254. -/
def sent_len (cfg : Platform) (s : State) : Nat :=
  if s.G_io_usb_hid_sequence_number = 0 then
    (if s.G_io_usb_hid_remaining_length > sub_u32 cfg.IO_HID_EP_LENGTH 7
     then sub_u32 cfg.IO_HID_EP_LENGTH 7 else s.G_io_usb_hid_remaining_length)
  else
    (if s.G_io_usb_hid_remaining_length > sub_u32 cfg.IO_HID_EP_LENGTH 5
     then sub_u32 cfg.IO_HID_EP_LENGTH 5 else s.G_io_usb_hid_remaining_length)

/-- The five header bytes written at lines 236-243 into the cleared scratch buffer. -/
def sent_header (cfg : Platform) (s : State) : List Byte :=
  poke1 (poke1 (poke1 (poke1 (poke1 (List.replicate cfg.sizeof_ep_buffer 0)
    0 (byte ((s.G_io_usb_hid_channel / 256) % 256)))
    1 (byte (s.G_io_usb_hid_channel % 256)))
    2 (byte 0x05))
    3 (byte (s.G_io_usb_hid_sequence_number / 256)))
    4 (byte s.G_io_usb_hid_sequence_number)

/-- The scratch buffer at line 263, when a chunk is emitted. -/
def sent_chunk (cfg : Platform) (s : State) : List Byte :=
  if s.G_io_usb_hid_sequence_number = 0 then
    poke (poke1 (poke1 (sent_header cfg s)
        5 (byte (s.G_io_usb_hid_remaining_length / 256)))
        6 (byte s.G_io_usb_hid_remaining_length))
      7 (mem_read s.mem s.G_io_usb_hid_current_buffer (sent_len cfg s))
  else
    poke (sent_header cfg s) 5 (mem_read s.mem s.G_io_usb_hid_current_buffer (sent_len cfg s))

/-! ## Sequences of calls -/

/-- The arguments of one call of `io_usb_hid_receive`. -/
structure RxCall where
  rng : Nat → Byte
  buffer : Option (List Byte)
  l : Nat
  apdu_buffer : Option apdu_buffer_t

/-- One call of an entry point of the transport. -/
inductive Call where
  | init
  | receive (c : RxCall)
  | send (sndlength : Nat) (apdu_buffer : Nat)
  | sent

/-- The state after one call. -/
def step (cfg : Platform) (s : State) : Call → State
  | Call.init => io_usb_hid_init s
  | Call.receive c => (io_usb_hid_receive cfg c.rng s c.buffer c.l c.apdu_buffer).st
  | Call.send sndlength apdu_buffer => io_usb_hid_send cfg s sndlength apdu_buffer
  | Call.sent => io_usb_hid_sent cfg s

/-- The state after a sequence of calls, first call first. -/
def run (cfg : Platform) (s : State) (calls : List Call) : State :=
  calls.foldl (step cfg) s

/-- The results of successive calls of `io_usb_hid_receive`, first call first. -/
def recv_trace (cfg : Platform) (s : State) : List RxCall → List Rx
  | [] => []
  | c :: cs =>
    io_usb_hid_receive cfg c.rng s c.buffer c.l c.apdu_buffer ::
      recv_trace cfg (io_usb_hid_receive cfg c.rng s c.buffer c.l c.apdu_buffer).st cs

/-- The state after successive calls of `io_usb_hid_receive`. -/
def recv_final (cfg : Platform) (s : State) : List RxCall → State
  | [] => s
  | c :: cs => recv_final cfg (io_usb_hid_receive cfg c.rng s c.buffer c.l c.apdu_buffer).st cs

/-- The number of bytes copied by a call. -/
def copied (r : Rx) : Nat :=
  match r.copy with
  | none => 0
  | some c => c.n

/-- The number of calls of a trace that accepted a data chunk (performed the `memmove`). -/
def accepted_count (tr : List Rx) : Nat :=
  (tr.filter fun r => r.copy.isSome).length

/-- The number of payload bytes copied over a trace. -/
def copied_total (tr : List Rx) : Nat :=
  (tr.map copied).sum

/-- The cursor lies inside the destination, `(cursor offset) + remaining_length` is
`total_length`, and `total_length` does not exceed the capacity of the destination. -/
def cursor_in_bounds (cfg : Platform) (ab : Option apdu_buffer_t) (s : State) : Prop :=
  apdu_buf cfg ab ≤ s.G_io_usb_hid_current_buffer ∧
  (s.G_io_usb_hid_current_buffer - apdu_buf cfg ab) + s.G_io_usb_hid_remaining_length
    = s.G_io_usb_hid_total_length ∧
  s.G_io_usb_hid_total_length ≤ apdu_buf_len cfg ab

instance (cfg : Platform) (ab : Option apdu_buffer_t) (s : State) :
    Decidable (cursor_in_bounds cfg ab s) := by
  unfold cursor_in_bounds
  infer_instance

/-- The copy `c` writes only offsets below `total` of the destination, `total` is at most the
capacity of the destination, and `c` reads only offsets of the scratch buffer below its size. -/
def copy_in_bounds (cfg : Platform) (ab : Option apdu_buffer_t) (total : Nat) (c : Copy) : Prop :=
  apdu_buf cfg ab ≤ c.dst ∧
  c.dst + c.n ≤ apdu_buf cfg ab + total ∧
  total ≤ apdu_buf_len cfg ab ∧
  c.src_off + c.n ≤ cfg.sizeof_ep_buffer

instance (cfg : Platform) (ab : Option apdu_buffer_t) (total : Nat) (c : Copy) :
    Decidable (copy_in_bounds cfg ab total c) := by
  unfold copy_in_bounds
  infer_instance

/-- The session is idle, or a reception is in flight and its cursor is in bounds. -/
def recv_inv (cfg : Platform) (ab : Option apdu_buffer_t) (s : State) : Prop :=
  (s.G_io_usb_hid_sequence_number = 0 ∧ s.G_io_usb_hid_remaining_length = 0) ∨
  (s.G_io_usb_hid_sequence_number ≠ 0 ∧ cursor_in_bounds cfg ab s)

/-! ## The fragmentation of an APDU, in the words of the specification -/

/-- The offset in the APDU of the first payload byte of chunk `k`, for chunks of `N` bytes:
chunk `0` carries up to `N - 7` bytes and every later chunk up to `N - 5`. -/
def payload_offset (N k : Nat) : Nat :=
  if k = 0 then 0 else (N - 7) + (k - 1) * (N - 5)

/-- The quotient `a / b` rounded up. -/
def ceil_div (a b : Nat) : Nat := (a + b - 1) / b

/-- The number of chunks of an APDU of `L` bytes: `1 + ceil(max(L - (N-7), 0) / (N-5))`. -/
def chunk_count (N L : Nat) : Nat :=
  1 + ceil_div (max (L - (N - 7)) 0) (N - 5)

/-- The number of payload bytes of chunk `k` of an APDU of `L` bytes. -/
def payload_length (N L k : Nat) : Nat :=
  if k = 0 then min L (N - 7) else min (L - payload_offset N k) (N - 5)

/-- Chunk `k` of the APDU `a` of `L` bytes on channel `c`, byte by byte: the channel on two
bytes, the tag `0x05`, `k` on two bytes, then for chunk `0` the length `L` on two bytes and
the first `min L (N-7)` bytes of `a`, for a later chunk the `min (remaining) (N-5)` bytes of
`a` from offset `payload_offset N k`; every other byte is zero.  Two-byte fields are big
endian. -/
def expected_chunk (N c L : Nat) (a : List Byte) (k : Nat) : List Byte :=
  (List.range N).map fun i =>
    if i = 0 then byte (c / 256)
    else if i = 1 then byte c
    else if i = 2 then byte 0x05
    else if i = 3 then byte (k / 256)
    else if i = 4 then byte k
    else if k = 0 then
      (if i = 5 then byte (L / 256)
       else if i = 6 then byte L
       else if i < 7 + payload_length N L 0 then nth a (i - 7)
       else 0)
    else
      (if i < 5 + payload_length N L k then nth a (payload_offset N k + (i - 5))
       else 0)

/-- The chunks handed to `sndfct` between the state `s` and the later state `t`. -/
def emitted (s t : State) : List (List Byte) :=
  t.sndfct_log.drop s.sndfct_log.length

/-- The state after `io_usb_hid_send` of `L` bytes at address `src`, followed by `n` calls of
`io_usb_hid_sent`. -/
def send_all (cfg : Platform) (s : State) (L src n : Nat) : State :=
  (io_usb_hid_sent cfg)^[n] (io_usb_hid_send cfg s L src)

/-- The state with which `io_usb_hid_send` enters `io_usb_hid_sent` (lines 277-280). -/
def armed (s : State) (L src : Nat) : State :=
  { s with
    G_io_usb_hid_sequence_number := 0
    G_io_usb_hid_current_buffer := src
    G_io_usb_hid_remaining_length := L
    G_io_usb_hid_total_length := L }

/-- The state of the sender once the first `k` chunks of the APDU `a` were emitted. -/
def sender_state (N : Nat) (s : State) (L src : Nat) (a : List Byte) (k : Nat) : State :=
  { s with
    G_io_usb_hid_total_length := L
    G_io_usb_hid_remaining_length := L - payload_offset N k
    G_io_usb_hid_sequence_number := k
    G_io_usb_hid_current_buffer := src + min L (payload_offset N k)
    G_io_usb_ep_buffer :=
      if k = 0 then s.G_io_usb_ep_buffer
      else expected_chunk N s.G_io_usb_hid_channel L a (k - 1)
    sndfct_log := s.sndfct_log ++ (List.range k).map (expected_chunk N s.G_io_usb_hid_channel L a) }

/-- The state of the sender after the call of `io_usb_hid_sent` that follows the last chunk. -/
def sender_done (N : Nat) (s : State) (L src : Nat) (a : List Byte) : State :=
  { sender_state N s L src a (chunk_count N L) with
    G_io_usb_hid_sequence_number := 0
    G_io_usb_hid_remaining_length := 0
    G_io_usb_hid_current_buffer := 0
    apdu_state := APDU_IDLE }

/-- The calls that feed `chunks`, in order and each with length `l`, to `io_usb_hid_receive`
with the destination `ab`. -/
def feed_calls (rng : Nat → Byte) (l : Nat) (ab : Option apdu_buffer_t)
    (chunks : List (List Byte)) : List RxCall :=
  chunks.map fun c => { rng := rng, buffer := some c, l := l, apdu_buffer := ab }

/-- The state of a receiver that expects chunk `k` of the APDU `a` of `L` bytes: the first
`payload_offset N k` bytes are in place at address `dst`. -/
def receiver_pre (N L dst : Nat) (a : List Byte) (k : Nat) (s : State) : Prop :=
  s.G_io_usb_hid_sequence_number = k ∧
  (k ≠ 0 →
    s.G_io_usb_hid_total_length = L ∧
    s.G_io_usb_hid_remaining_length = L - payload_offset N k ∧
    s.G_io_usb_hid_current_buffer = dst + payload_offset N k ∧
    ∀ i, i < payload_offset N k → s.mem (dst + i) = nth a i)

/-! ## The single-chunk send primitive `io_usb_send_ep` -/

/-- The two constants that `io_usb_send_ep` stores in its header; they are declared outside
`os_io_usb.c` and are parameters here. -/
structure Seproxyhal where
  SEPROXYHAL_TAG_USB_EP_PREPARE : Byte
  SEPROXYHAL_TAG_USB_EP_PREPARE_DIR_IN : Byte

/-- The value that lines 35-37 give to `IO_RAPDU_TRANSMIT_TIMEOUT_MS` (in milliseconds). -/
def IO_RAPDU_TRANSMIT_TIMEOUT_MS : Nat := 2000

/-- What `io_usb_send_ep` acts on: the buffers handed to `io_seproxyhal_spi_send`, oldest
first, and the field `timeout` of each slot of `G_io_app.usb_ep_timeouts`. -/
structure Link where
  spi_log : List (List Byte)
  usb_ep_timeouts : Nat → Nat

/-- The function `io_usb_send_ep` (lines 42-59); `buffer` is the contents of the caller's
buffer and the parameter `timeout` is unused, as in the source. -/
def io_usb_send_ep (k : Seproxyhal) (t : Link) (ep : Nat) (buffer : List Byte) (length : Nat)
    (_timeout : Nat) : Link :=
  if length > 255 then
    t
  else
    let buf : List Byte :=
      [ k.SEPROXYHAL_TAG_USB_EP_PREPARE,
        byte ((3 + length) / 256),
        byte (3 + length),
        byte (ep ||| 0x80),
        k.SEPROXYHAL_TAG_USB_EP_PREPARE_DIR_IN,
        byte length ]
    { spi_log := t.spi_log ++ [slice buf 0 6] ++ [slice buffer 0 length]
      usb_ep_timeouts :=
        fun i => if i = ep % 128 then IO_RAPDU_TRANSMIT_TIMEOUT_MS else t.usb_ep_timeouts i }

/-- The function `io_usb_send_apdu_data` (lines 61-64). -/
def io_usb_send_apdu_data (k : Seproxyhal) (t : Link) (buffer : List Byte) (length : Nat) : Link :=
  io_usb_send_ep k t 0x82 buffer length 20

/-! ## Concrete inputs used to exercise the statements -/

/-- A platform with eight-byte reports. -/
def cfg8 : Platform :=
  { sizeof_ep_buffer := 8, IO_HID_EP_LENGTH := 8, G_io_apdu_buffer := 5000, sizeof_apdu_buffer := 260 }

/-- The state in which every global is zero and nothing was sent. -/
def zero_state (cfg : Platform) : State :=
  { G_io_usb_hid_total_length := 0
    G_io_usb_hid_channel := 0
    G_io_usb_hid_remaining_length := 0
    G_io_usb_hid_sequence_number := 0
    G_io_usb_hid_current_buffer := 0
    G_io_usb_ep_buffer := List.replicate cfg.sizeof_ep_buffer 0
    apdu_state := APDU_IDLE
    mem := fun _ => 0
    sndfct_log := [] }

/-- A sixteen-byte destination at address `2000`. -/
def dest16 : Option apdu_buffer_t := some { buf := 2000, len := 16 }

/-- A first data chunk on channel `0x0101` that declares `0x0100 = 256` bytes. -/
def oversize_chunk : List Byte := [1, 1, 5, 0, 0, 1, 0, 9]

/-- A data chunk that carries sequence number `1`. -/
def stray_chunk : List Byte := [0, 0, 5, 0, 1, 7, 7, 7]

/-- A first data chunk on channel `0`, declaring 9 bytes and carrying the first of them. -/
def first_of_nine : List Byte := [0, 0, 5, 0, 0, 0, 9, 0x41]

/-- The continuation with sequence number `1`, carrying three bytes. -/
def second_of_nine : List Byte := [0, 0, 5, 0, 1, 0x42, 0x43, 0x44]

/-- Two calls of `io_usb_hid_receive` that feed the first two chunks of a nine-byte APDU into
the destination `dest16`. -/
def two_calls : List RxCall :=
  [ { rng := fun _ => 0, buffer := some first_of_nine, l := 8, apdu_buffer := dest16 },
    { rng := fun _ => 0, buffer := some second_of_nine, l := 8, apdu_buffer := dest16 } ]

/-- A platform with 32-byte reports. -/
def cfg32 : Platform :=
  { sizeof_ep_buffer := 32, IO_HID_EP_LENGTH := 32, G_io_apdu_buffer := 5000, sizeof_apdu_buffer := 260 }

/-- An APDU of three bytes. -/
def apdu3 : List Byte := [0xE0, 0x01, 0x02]

/-- The all-zero state of `cfg8` in which `apdu3` is stored at address `1000`. -/
def sender8 : State :=
  { zero_state cfg8 with mem := mem_write (fun _ => 0) 1000 apdu3 }

/-- The sender `sender8` right after `io_usb_hid_send` of a one-byte APDU: the only chunk was
emitted and its acknowledgement has not come yet. -/
def sent_one : State := io_usb_hid_send cfg8 sender8 1 1000

/-- A chunk with the unsupported tag `0x03`. -/
def abort_chunk : List Byte := [0, 0, 3, 0, 0, 0, 0, 0]

/-- A ping chunk (tag `0x02`). -/
def ping_chunk : List Byte := [0, 0, 2, 0xAA, 0xBB, 0xCC, 0xDD, 0xEE]

/-- A six-byte first data chunk that declares `0x0100 = 256` bytes; it is shorter than its
seven-byte header. -/
def short_chunk : List Byte := [0, 0, 5, 0, 0, 1]

/-- A destination of 300 bytes at address `2000`. -/
def dest300 : Option apdu_buffer_t := some { buf := 2000, len := 300 }

/-- The receiver after the first chunk of the nine-byte APDU: one byte is in place in
`dest16` and `sequence_number = 1`. -/
def after_first : State :=
  (io_usb_hid_receive cfg8 (fun _ => 0) (zero_state cfg8) (some first_of_nine) 8 dest16).st

/-- A complete one-byte APDU in a single data chunk on channel `0x1234`. -/
def single_chunk : List Byte := [0x12, 0x34, 5, 0, 0, 0, 1, 0x41]

/-- The call of `io_usb_hid_receive` that feeds `single_chunk` into `dest16`. -/
def single_call : RxCall :=
  { rng := fun _ => 0, buffer := some single_chunk, l := 8, apdu_buffer := dest16 }

/-! ## Basic facts about buffers -/

theorem nth_map_range (n : Nat) (f : Nat → Byte) (i : Nat) :
    nth ((List.range n).map f) i = if i < n then f i else 0 := by
  by_cases h : i < n
  · simp [nth, List.getElem?_range h, h]
  · have h2 : (List.range n)[i]? = none := List.getElem?_eq_none (by simpa using h)
    simp [nth, h2, h]

theorem nth_of_length_le (xs : List Byte) (i : Nat) (h : xs.length ≤ i) : nth xs i = 0 := by
  simp [nth, List.getElem?_eq_none h]

theorem nth_eq_getElem (xs : List Byte) (i : Nat) (h : i < xs.length) : nth xs i = xs[i] := by
  simp [nth, List.getElem?_eq_getElem h]

theorem list_ext_nth (xs ys : List Byte) (hl : xs.length = ys.length)
    (h : ∀ i, i < xs.length → nth xs i = nth ys i) : xs = ys := by
  apply List.ext_getElem hl
  intro i h1 h2
  have := h i h1
  rwa [nth_eq_getElem xs i h1, nth_eq_getElem ys i h2] at this

@[simp] theorem slice_length (buf : List Byte) (off n : Nat) : (slice buf off n).length = n := by
  simp [slice]

theorem nth_slice (buf : List Byte) (off n i : Nat) :
    nth (slice buf off n) i = if i < n then nth buf (off + i) else 0 := by
  simp only [slice, nth_map_range]

@[simp] theorem poke_length (buf : List Byte) (off : Nat) (src : List Byte) :
    (poke buf off src).length = buf.length := by
  simp [poke]

theorem nth_poke (buf : List Byte) (off : Nat) (src : List Byte) (i : Nat) :
    nth (poke buf off src) i =
      if i < buf.length then
        (if off ≤ i ∧ i < off + src.length then nth src (i - off) else nth buf i)
      else 0 := by
  simp only [poke, nth_map_range]

@[simp] theorem poke1_length (buf : List Byte) (i : Nat) (v : Byte) :
    (poke1 buf i v).length = buf.length := by
  simp [poke1]

theorem nth_poke1 (buf : List Byte) (i : Nat) (v : Byte) (j : Nat) :
    nth (poke1 buf i v) j = if j < buf.length then (if j = i then v else nth buf j) else 0 := by
  simp only [poke1, nth_map_range]

theorem nth_replicate_zero (n i : Nat) : nth (List.replicate n (0 : Byte)) i = 0 := by
  by_cases h : i < n
  · simp [nth, List.getElem?_replicate, h]
  · simp [nth, List.getElem?_replicate, h]

@[simp] theorem mem_read_length (mem : Nat → Byte) (p n : Nat) : (mem_read mem p n).length = n := by
  simp [mem_read]

theorem nth_mem_read (mem : Nat → Byte) (p n i : Nat) :
    nth (mem_read mem p n) i = if i < n then mem (p + i) else 0 := by
  simp only [mem_read, nth_map_range]

theorem U2BE_lt (buf : List Byte) (off : Nat) : U2BE buf off < 65536 := by
  unfold U2BE
  have h1 := (nth buf off).isLt
  have h2 := (nth buf (off + 1)).isLt
  omega

theorem byte_val (n : Nat) : (byte n).val = n % 256 := rfl

/-! ## Rejection of data chunks -/

theorem receive_eq_case_data (cfg : Platform) (rng : Nat → Byte) (s : State)
    (buffer : Option (List Byte)) (l : Nat) (ab : Option apdu_buffer_t)
    (htag : (nth (scratch cfg s buffer l) 2).val = 0x05) :
    io_usb_hid_receive cfg rng s buffer l ab = case_data cfg (load cfg s buffer l) l ab := by
  unfold scratch at htag
  simp only [io_usb_hid_receive, htag, if_true]

theorem load_frame (cfg : Platform) (s : State) (buffer : Option (List Byte)) (l : Nat) :
    load cfg s buffer l = { s with G_io_usb_ep_buffer := scratch cfg s buffer l } := by
  cases buffer <;> rfl

/-- C3 (oversize rejection).  With `sequence_number = 0`, a data chunk (tag `0x05`, sequence
field `0`) whose declared total length exceeds the capacity of the destination is answered
with `IO_USB_APDU_RESET`; no copy is performed, the memory is unchanged and the state is left
with `remaining_length = 0`, `sequence_number = 0` and a `NULL` cursor, for every chunk
length `l` and every payload. -/
theorem oversize_rejection (cfg : Platform) (rng : Nat → Byte) (s : State)
    (buffer : Option (List Byte)) (l : Nat) (ab : Option apdu_buffer_t)
    (hseq : s.G_io_usb_hid_sequence_number = 0)
    (htag : (nth (scratch cfg s buffer l) 2).val = 0x05)
    (hfield : U2BE (scratch cfg s buffer l) 3 = 0)
    (hbig : apdu_buf_len cfg ab < U2BE (scratch cfg s buffer l) 5) :
    (io_usb_hid_receive cfg rng s buffer l ab).status = IO_USB_APDU_RESET ∧
    (io_usb_hid_receive cfg rng s buffer l ab).copy = none ∧
    (io_usb_hid_receive cfg rng s buffer l ab).st.mem = s.mem ∧
    (io_usb_hid_receive cfg rng s buffer l ab).st.G_io_usb_hid_remaining_length = 0 ∧
    (io_usb_hid_receive cfg rng s buffer l ab).st.G_io_usb_hid_sequence_number = 0 ∧
    (io_usb_hid_receive cfg rng s buffer l ab).st.G_io_usb_hid_current_buffer = 0 := by
  rw [receive_eq_case_data cfg rng s buffer l ab htag, load_frame]
  simp [case_data, hseq, hfield, hbig, apdu_reset, io_usb_hid_init]

/-- C4 (out-of-order rejection).  A data chunk (tag `0x05`) whose sequence field differs from
the session's `sequence_number` is answered with `IO_USB_APDU_RESET`; no copy is performed,
the memory (hence the destination buffer) is unchanged, and the state is left with
`sequence_number = 0`, `remaining_length = 0` and a `NULL` cursor. -/
theorem out_of_order_rejection (cfg : Platform) (rng : Nat → Byte) (s : State)
    (buffer : Option (List Byte)) (l : Nat) (ab : Option apdu_buffer_t)
    (htag : (nth (scratch cfg s buffer l) 2).val = 0x05)
    (hfield : U2BE (scratch cfg s buffer l) 3 ≠ s.G_io_usb_hid_sequence_number) :
    (io_usb_hid_receive cfg rng s buffer l ab).status = IO_USB_APDU_RESET ∧
    (io_usb_hid_receive cfg rng s buffer l ab).copy = none ∧
    (io_usb_hid_receive cfg rng s buffer l ab).st.mem = s.mem ∧
    (io_usb_hid_receive cfg rng s buffer l ab).st.G_io_usb_hid_sequence_number = 0 ∧
    (io_usb_hid_receive cfg rng s buffer l ab).st.G_io_usb_hid_remaining_length = 0 ∧
    (io_usb_hid_receive cfg rng s buffer l ab).st.G_io_usb_hid_current_buffer = 0 := by
  rw [receive_eq_case_data cfg rng s buffer l ab htag, load_frame]
  simp [case_data, hfield, apdu_reset, io_usb_hid_init]

theorem after_switch_status (s : State) (c : Option Copy) :
    (after_switch s c).status ≠ IO_USB_APDU_RESET := by
  unfold after_switch
  split_ifs <;> simp

theorem factorize_status (s : State) (h l : Nat) :
    (factorize s h l).status ≠ IO_USB_APDU_RESET := by
  unfold factorize
  exact after_switch_status _ _

theorem case_data_mismatch (cfg : Platform) (s : State) (l : Nat) (ab : Option apdu_buffer_t)
    (h : U2BE s.G_io_usb_ep_buffer 3 ≠ s.G_io_usb_hid_sequence_number) :
    case_data cfg s l ab = apdu_reset s := by
  simp [case_data, h]

theorem case_data_oversize (cfg : Platform) (s : State) (l : Nat) (ab : Option apdu_buffer_t)
    (h : U2BE s.G_io_usb_ep_buffer 3 = s.G_io_usb_hid_sequence_number)
    (h0 : s.G_io_usb_hid_sequence_number = 0)
    (hbig : apdu_buf_len cfg ab < U2BE s.G_io_usb_ep_buffer 5) :
    case_data cfg s l ab =
      apdu_reset { s with G_io_usb_hid_total_length := U2BE s.G_io_usb_ep_buffer 5 } := by
  simp [case_data, h, h0, hbig]

theorem case_data_first (cfg : Platform) (s : State) (l : Nat) (ab : Option apdu_buffer_t)
    (h : U2BE s.G_io_usb_ep_buffer 3 = s.G_io_usb_hid_sequence_number)
    (h0 : s.G_io_usb_hid_sequence_number = 0)
    (hfit : U2BE s.G_io_usb_ep_buffer 5 ≤ apdu_buf_len cfg ab) :
    case_data cfg s l ab = factorize (first_state cfg s ab) 7 (first_len cfg s l) := by
  simp [case_data, h, h0, Nat.not_lt.mpr hfit, first_state, first_len]

theorem case_data_next (cfg : Platform) (s : State) (l : Nat) (ab : Option apdu_buffer_t)
    (h : U2BE s.G_io_usb_ep_buffer 3 = s.G_io_usb_hid_sequence_number)
    (h0 : s.G_io_usb_hid_sequence_number ≠ 0) :
    case_data cfg s l ab = factorize s 5 (next_len cfg s l) := by
  simp [case_data, h, h0, next_len]

theorem receive_control (cfg : Platform) (rng : Nat → Byte) (s : State)
    (buffer : Option (List Byte)) (l : Nat) (ab : Option apdu_buffer_t)
    (htag : (nth (scratch cfg s buffer l) 2).val = 0x00 ∨
      (nth (scratch cfg s buffer l) 2).val = 0x01 ∨ (nth (scratch cfg s buffer l) 2).val = 0x02) :
    ∃ s1 : State, io_usb_hid_receive cfg rng s buffer l ab = apdu_reset s1 ∧ s1.mem = s.mem := by
  have hmem : (load cfg s buffer l).mem = s.mem := by rw [load_frame]
  unfold scratch at htag
  rcases htag with h | h | h
  · refine ⟨_, by simp only [io_usb_hid_receive, h]; rfl, ?_⟩
    simpa [sndfct] using hmem
  · refine ⟨_, by simp only [io_usb_hid_receive, h]; rfl, ?_⟩
    simpa [sndfct] using hmem
  · refine ⟨_, by simp only [io_usb_hid_receive, h]; rfl, ?_⟩
    simpa [sndfct] using hmem

theorem receive_unknown (cfg : Platform) (rng : Nat → Byte) (s : State)
    (buffer : Option (List Byte)) (l : Nat) (ab : Option apdu_buffer_t)
    (h5 : (nth (scratch cfg s buffer l) 2).val ≠ 0x05)
    (h0 : (nth (scratch cfg s buffer l) 2).val ≠ 0x00)
    (h1 : (nth (scratch cfg s buffer l) 2).val ≠ 0x01)
    (h2 : (nth (scratch cfg s buffer l) 2).val ≠ 0x02) :
    io_usb_hid_receive cfg rng s buffer l ab = after_switch (load cfg s buffer l) none := by
  unfold scratch at h5 h0 h1 h2
  simp only [io_usb_hid_receive, h5, h0, h1, h2, if_false]

/-- Every call of `io_usb_hid_receive` ends at the label `apdu_reset`, or in `factorize` after
an accepted first or continuation chunk, or falls out of the `switch` on an unknown tag. -/
theorem receive_cases (cfg : Platform) (rng : Nat → Byte) (s : State)
    (buffer : Option (List Byte)) (l : Nat) (ab : Option apdu_buffer_t) :
    (∃ s1 : State, io_usb_hid_receive cfg rng s buffer l ab = apdu_reset s1 ∧ s1.mem = s.mem) ∨
    ((nth (scratch cfg s buffer l) 2).val = 0x05 ∧
      s.G_io_usb_hid_sequence_number = 0 ∧
      U2BE (scratch cfg s buffer l) 3 = 0 ∧
      U2BE (scratch cfg s buffer l) 5 ≤ apdu_buf_len cfg ab ∧
      io_usb_hid_receive cfg rng s buffer l ab =
        factorize (first_state cfg (load cfg s buffer l) ab) 7
          (first_len cfg (load cfg s buffer l) l)) ∨
    ((nth (scratch cfg s buffer l) 2).val = 0x05 ∧
      s.G_io_usb_hid_sequence_number ≠ 0 ∧
      U2BE (scratch cfg s buffer l) 3 = s.G_io_usb_hid_sequence_number ∧
      io_usb_hid_receive cfg rng s buffer l ab =
        factorize (load cfg s buffer l) 5 (next_len cfg (load cfg s buffer l) l)) ∨
    ((nth (scratch cfg s buffer l) 2).val ≠ 0x05 ∧
      io_usb_hid_receive cfg rng s buffer l ab = after_switch (load cfg s buffer l) none) := by
  have hseq : (load cfg s buffer l).G_io_usb_hid_sequence_number = s.G_io_usb_hid_sequence_number := by
    rw [load_frame]
  have hep : (load cfg s buffer l).G_io_usb_ep_buffer = scratch cfg s buffer l := rfl
  have hmem : (load cfg s buffer l).mem = s.mem := by rw [load_frame]
  by_cases h5 : (nth (scratch cfg s buffer l) 2).val = 0x05
  · rw [receive_eq_case_data cfg rng s buffer l ab h5]
    by_cases hm : U2BE (load cfg s buffer l).G_io_usb_ep_buffer 3 =
        (load cfg s buffer l).G_io_usb_hid_sequence_number
    · by_cases h0 : (load cfg s buffer l).G_io_usb_hid_sequence_number = 0
      · by_cases hfit : U2BE (load cfg s buffer l).G_io_usb_ep_buffer 5 ≤ apdu_buf_len cfg ab
        · refine Or.inr (Or.inl ⟨h5, ?_, ?_, ?_, case_data_first cfg _ l ab hm h0 hfit⟩)
          · rw [← hseq]; exact h0
          · rw [← hep, hm, h0]
          · rw [← hep]; exact hfit
        · exact Or.inl ⟨_, case_data_oversize cfg _ l ab hm h0 (Nat.lt_of_not_le hfit),
            by simpa using hmem⟩
      · refine Or.inr (Or.inr (Or.inl ⟨h5, ?_, ?_, case_data_next cfg _ l ab hm h0⟩))
        · rw [← hseq]; exact h0
        · rw [← hep, hm, hseq]
    · exact Or.inl ⟨_, case_data_mismatch cfg _ l ab hm, hmem⟩
  · by_cases h0 : (nth (scratch cfg s buffer l) 2).val = 0x00
    · exact Or.inl (receive_control cfg rng s buffer l ab (Or.inl h0))
    · by_cases h1 : (nth (scratch cfg s buffer l) 2).val = 0x01
      · exact Or.inl (receive_control cfg rng s buffer l ab (Or.inr (Or.inl h1)))
      · by_cases h2 : (nth (scratch cfg s buffer l) 2).val = 0x02
        · exact Or.inl (receive_control cfg rng s buffer l ab (Or.inr (Or.inr h2)))
        · exact Or.inr (Or.inr (Or.inr ⟨h5, receive_unknown cfg rng s buffer l ab h5 h0 h1 h2⟩))

theorem reset_state (cfg : Platform) (rng : Nat → Byte) (s : State)
    (buffer : Option (List Byte)) (l : Nat) (ab : Option apdu_buffer_t)
    (h : (io_usb_hid_receive cfg rng s buffer l ab).status = IO_USB_APDU_RESET) :
    (io_usb_hid_receive cfg rng s buffer l ab).st.G_io_usb_hid_sequence_number = 0 ∧
    (io_usb_hid_receive cfg rng s buffer l ab).st.G_io_usb_hid_remaining_length = 0 ∧
    (io_usb_hid_receive cfg rng s buffer l ab).st.G_io_usb_hid_current_buffer = 0 := by
  rcases receive_cases cfg rng s buffer l ab with
    ⟨s1, e, _⟩ | ⟨_, _, _, _, e⟩ | ⟨_, _, _, e⟩ | ⟨_, e⟩
  · rw [e]; simp [apdu_reset, io_usb_hid_init]
  · rw [e] at h; exact absurd h (factorize_status _ _ _)
  · rw [e] at h; exact absurd h (factorize_status _ _ _)
  · rw [e] at h; exact absurd h (after_switch_status _ _)

/-- C5 (reset characterisation).  `io_usb_hid_receive` returns `IO_USB_APDU_RESET` exactly when
the tag is `0x00`, `0x01` or `0x02`, or the tag is `0x05` and either the sequence field differs
from `sequence_number` or `sequence_number = 0` and the declared total length exceeds the
capacity of the destination; and after every `IO_USB_APDU_RESET` the state has
`sequence_number = 0`, `remaining_length = 0` and a `NULL` cursor. -/
theorem reset_characterisation (cfg : Platform) (rng : Nat → Byte) (s : State)
    (buffer : Option (List Byte)) (l : Nat) (ab : Option apdu_buffer_t) :
    ((io_usb_hid_receive cfg rng s buffer l ab).status = IO_USB_APDU_RESET ↔
      ((nth (scratch cfg s buffer l) 2).val = 0x00 ∨
       (nth (scratch cfg s buffer l) 2).val = 0x01 ∨
       (nth (scratch cfg s buffer l) 2).val = 0x02 ∨
       ((nth (scratch cfg s buffer l) 2).val = 0x05 ∧
        (U2BE (scratch cfg s buffer l) 3 ≠ s.G_io_usb_hid_sequence_number ∨
         (s.G_io_usb_hid_sequence_number = 0 ∧
          apdu_buf_len cfg ab < U2BE (scratch cfg s buffer l) 5))))) ∧
    ((io_usb_hid_receive cfg rng s buffer l ab).status = IO_USB_APDU_RESET →
      (io_usb_hid_receive cfg rng s buffer l ab).st.G_io_usb_hid_sequence_number = 0 ∧
      (io_usb_hid_receive cfg rng s buffer l ab).st.G_io_usb_hid_remaining_length = 0 ∧
      (io_usb_hid_receive cfg rng s buffer l ab).st.G_io_usb_hid_current_buffer = 0) := by
  refine ⟨?_, reset_state cfg rng s buffer l ab⟩
  have hseq : (load cfg s buffer l).G_io_usb_hid_sequence_number = s.G_io_usb_hid_sequence_number := by
    rw [load_frame]
  have hep : (load cfg s buffer l).G_io_usb_ep_buffer = scratch cfg s buffer l := rfl
  by_cases h5 : (nth (scratch cfg s buffer l) 2).val = 0x05
  · rw [receive_eq_case_data cfg rng s buffer l ab h5]
    by_cases hm : U2BE (scratch cfg s buffer l) 3 = s.G_io_usb_hid_sequence_number
    · by_cases h0 : s.G_io_usb_hid_sequence_number = 0
      · by_cases hfit : U2BE (scratch cfg s buffer l) 5 ≤ apdu_buf_len cfg ab
        · rw [case_data_first cfg _ l ab (by rw [hep, hseq]; exact hm) (by rw [hseq]; exact h0)
            (by rw [hep]; exact hfit)]
          have := factorize_status
          simp [h5, hm, h0, Nat.not_lt.mpr hfit, this]
        · rw [case_data_oversize cfg _ l ab (by rw [hep, hseq]; exact hm) (by rw [hseq]; exact h0)
            (by rw [hep]; exact Nat.lt_of_not_le hfit)]
          simp [h5, h0, Nat.lt_of_not_le hfit, apdu_reset]
      · rw [case_data_next cfg _ l ab (by rw [hep, hseq]; exact hm) (by rw [hseq]; exact h0)]
        have := factorize_status
        simp [h5, hm, h0, this]
    · rw [case_data_mismatch cfg _ l ab (by rw [hep, hseq]; exact hm)]
      simp [h5, hm, apdu_reset]
  · by_cases h0 : (nth (scratch cfg s buffer l) 2).val = 0x00
    · obtain ⟨s1, e, _⟩ := receive_control cfg rng s buffer l ab (Or.inl h0)
      rw [e]; simp [h0, apdu_reset]
    · by_cases h1 : (nth (scratch cfg s buffer l) 2).val = 0x01
      · obtain ⟨s1, e, _⟩ := receive_control cfg rng s buffer l ab (Or.inr (Or.inl h1))
        rw [e]; simp [h1, apdu_reset]
      · by_cases h2 : (nth (scratch cfg s buffer l) 2).val = 0x02
        · obtain ⟨s1, e, _⟩ := receive_control cfg rng s buffer l ab (Or.inr (Or.inr h2))
          rw [e]; simp [h2, apdu_reset]
        · rw [receive_unknown cfg rng s buffer l ab h5 h0 h1 h2]
          have := after_switch_status (load cfg s buffer l) none
          simp [h5, h0, h1, h2, this]

/-- Witness of C3: the chunk `oversize_chunk` declares 256 bytes for a destination of 16. -/
theorem oversize_rejection_witness :
    (io_usb_hid_receive cfg8 (fun _ => 0) (zero_state cfg8) (some oversize_chunk) 8 dest16).status
        = IO_USB_APDU_RESET ∧
    (io_usb_hid_receive cfg8 (fun _ => 0) (zero_state cfg8) (some oversize_chunk) 8 dest16).copy
        = none ∧
    (io_usb_hid_receive cfg8 (fun _ => 0) (zero_state cfg8) (some oversize_chunk) 8 dest16).st.mem
        = (zero_state cfg8).mem ∧
    (io_usb_hid_receive cfg8 (fun _ => 0) (zero_state cfg8) (some oversize_chunk) 8
        dest16).st.G_io_usb_hid_remaining_length = 0 ∧
    (io_usb_hid_receive cfg8 (fun _ => 0) (zero_state cfg8) (some oversize_chunk) 8
        dest16).st.G_io_usb_hid_sequence_number = 0 ∧
    (io_usb_hid_receive cfg8 (fun _ => 0) (zero_state cfg8) (some oversize_chunk) 8
        dest16).st.G_io_usb_hid_current_buffer = 0 :=
  oversize_rejection cfg8 (fun _ => 0) (zero_state cfg8) (some oversize_chunk) 8 dest16
    (by decide) (by decide) (by decide) (by decide)

/-- Witness of C4: sequence number `1` arrives while `0` is expected. -/
theorem out_of_order_rejection_witness :
    (io_usb_hid_receive cfg8 (fun _ => 0) (zero_state cfg8) (some stray_chunk) 8 dest16).status
        = IO_USB_APDU_RESET ∧
    (io_usb_hid_receive cfg8 (fun _ => 0) (zero_state cfg8) (some stray_chunk) 8 dest16).copy
        = none ∧
    (io_usb_hid_receive cfg8 (fun _ => 0) (zero_state cfg8) (some stray_chunk) 8 dest16).st.mem
        = (zero_state cfg8).mem ∧
    (io_usb_hid_receive cfg8 (fun _ => 0) (zero_state cfg8) (some stray_chunk) 8
        dest16).st.G_io_usb_hid_sequence_number = 0 ∧
    (io_usb_hid_receive cfg8 (fun _ => 0) (zero_state cfg8) (some stray_chunk) 8
        dest16).st.G_io_usb_hid_remaining_length = 0 ∧
    (io_usb_hid_receive cfg8 (fun _ => 0) (zero_state cfg8) (some stray_chunk) 8
        dest16).st.G_io_usb_hid_current_buffer = 0 :=
  out_of_order_rejection cfg8 (fun _ => 0) (zero_state cfg8) (some stray_chunk) 8 dest16
    (by decide) (by decide)

/-! ## What a rejection changes -/

/-- C10 as stated fails: the oversize rejection of `oversize_chunk` on the all-zero state
returns `IO_USB_APDU_RESET` and leaves `total_length = 256`, where it was `0` before the call. -/
theorem errors_only_reset_counterexample :
    (nth (scratch cfg8 (zero_state cfg8) (some oversize_chunk) 8) 2).val = 0x05 ∧
    U2BE (scratch cfg8 (zero_state cfg8) (some oversize_chunk) 8) 3
      = (zero_state cfg8).G_io_usb_hid_sequence_number ∧
    (zero_state cfg8).G_io_usb_hid_sequence_number = 0 ∧
    apdu_buf_len cfg8 dest16 < U2BE (scratch cfg8 (zero_state cfg8) (some oversize_chunk) 8) 5 ∧
    (io_usb_hid_receive cfg8 (fun _ => 0) (zero_state cfg8) (some oversize_chunk) 8 dest16).status
      = IO_USB_APDU_RESET ∧
    (zero_state cfg8).G_io_usb_hid_total_length = 0 ∧
    (io_usb_hid_receive cfg8 (fun _ => 0) (zero_state cfg8) (some oversize_chunk) 8
      dest16).st.G_io_usb_hid_total_length = 256 := by
  decide

/-- C10 (amended).  When `io_usb_hid_receive` rejects a data chunk (sequence violation, or first
chunk declaring more than the capacity of the destination) it returns `IO_USB_APDU_RESET`,
performs no copy, and the state it leaves is the state before the call with
`sequence_number`, `remaining_length` and the cursor at their idle values, the scratch buffer
holding the chunk, and `total_length` unchanged after a sequence violation but equal to the
declared total length after an oversize rejection; `channel`, the memory, `apdu_state` and the
`sndfct` log are the same as before the call. -/
theorem errors_only_reset (cfg : Platform) (rng : Nat → Byte) (s : State)
    (buffer : Option (List Byte)) (l : Nat) (ab : Option apdu_buffer_t)
    (htag : (nth (scratch cfg s buffer l) 2).val = 0x05)
    (hrej : U2BE (scratch cfg s buffer l) 3 ≠ s.G_io_usb_hid_sequence_number ∨
      (s.G_io_usb_hid_sequence_number = 0 ∧
        apdu_buf_len cfg ab < U2BE (scratch cfg s buffer l) 5)) :
    (io_usb_hid_receive cfg rng s buffer l ab).status = IO_USB_APDU_RESET ∧
    (io_usb_hid_receive cfg rng s buffer l ab).copy = none ∧
    (io_usb_hid_receive cfg rng s buffer l ab).st =
      { s with
        G_io_usb_hid_sequence_number := 0
        G_io_usb_hid_remaining_length := 0
        G_io_usb_hid_current_buffer := 0
        G_io_usb_ep_buffer := scratch cfg s buffer l
        G_io_usb_hid_total_length :=
          if U2BE (scratch cfg s buffer l) 3 ≠ s.G_io_usb_hid_sequence_number
          then s.G_io_usb_hid_total_length
          else U2BE (scratch cfg s buffer l) 5 } := by
  rw [receive_eq_case_data cfg rng s buffer l ab htag, load_frame]
  by_cases hm : U2BE (scratch cfg s buffer l) 3 = s.G_io_usb_hid_sequence_number
  · rcases hrej with h | ⟨h0, hbig⟩
    · exact absurd hm h
    · rw [case_data_oversize cfg _ l ab (by simpa using hm) (by simpa using h0)
        (by simpa using hbig)]
      simp [apdu_reset, io_usb_hid_init, hm]
  · rw [case_data_mismatch cfg _ l ab (by simpa using hm)]
    simp [apdu_reset, io_usb_hid_init, hm]

/-- Witness of C10 (amended), on the oversize rejection of `oversize_chunk`. -/
theorem errors_only_reset_witness :
    (io_usb_hid_receive cfg8 (fun _ => 0) (zero_state cfg8) (some oversize_chunk) 8 dest16).status
      = IO_USB_APDU_RESET ∧
    (io_usb_hid_receive cfg8 (fun _ => 0) (zero_state cfg8) (some oversize_chunk) 8 dest16).copy
      = none ∧
    (io_usb_hid_receive cfg8 (fun _ => 0) (zero_state cfg8) (some oversize_chunk) 8 dest16).st =
      { zero_state cfg8 with
        G_io_usb_hid_sequence_number := 0
        G_io_usb_hid_remaining_length := 0
        G_io_usb_hid_current_buffer := 0
        G_io_usb_ep_buffer := scratch cfg8 (zero_state cfg8) (some oversize_chunk) 8
        G_io_usb_hid_total_length :=
          if U2BE (scratch cfg8 (zero_state cfg8) (some oversize_chunk) 8) 3
              ≠ (zero_state cfg8).G_io_usb_hid_sequence_number
          then (zero_state cfg8).G_io_usb_hid_total_length
          else U2BE (scratch cfg8 (zero_state cfg8) (some oversize_chunk) 8) 5 } :=
  errors_only_reset cfg8 (fun _ => 0) (zero_state cfg8) (some oversize_chunk) 8 dest16
    (by decide) (Or.inr ⟨by decide, by decide⟩)

/-! ## The invariant `remaining_length ≤ total_length` -/

theorem clamp_le (l b : Nat) : clamp l b ≤ b := by
  unfold clamp
  split_ifs <;> omega

theorem clamp_le_left (l b : Nat) : clamp l b ≤ l := by
  unfold clamp
  split_ifs <;> omega

theorem after_switch_lengths (s : State) (c : Option Copy) :
    (after_switch s c).st.G_io_usb_hid_remaining_length ≤ s.G_io_usb_hid_remaining_length ∧
    (after_switch s c).st.G_io_usb_hid_total_length = s.G_io_usb_hid_total_length := by
  unfold after_switch
  split_ifs <;> simp [io_usb_hid_init]

theorem factorize_lengths (s : State) (h l : Nat) :
    (factorize s h l).st.G_io_usb_hid_remaining_length ≤ s.G_io_usb_hid_remaining_length ∧
    (factorize s h l).st.G_io_usb_hid_total_length = s.G_io_usb_hid_total_length := by
  unfold factorize
  refine ⟨le_trans (after_switch_lengths _ _).1 ?_, (after_switch_lengths _ _).2⟩
  simp

theorem receive_keeps_bound (cfg : Platform) (rng : Nat → Byte) (s : State)
    (buffer : Option (List Byte)) (l : Nat) (ab : Option apdu_buffer_t)
    (h : s.G_io_usb_hid_remaining_length ≤ s.G_io_usb_hid_total_length) :
    (io_usb_hid_receive cfg rng s buffer l ab).st.G_io_usb_hid_remaining_length ≤
      (io_usb_hid_receive cfg rng s buffer l ab).st.G_io_usb_hid_total_length := by
  have hl : (load cfg s buffer l).G_io_usb_hid_remaining_length ≤
      (load cfg s buffer l).G_io_usb_hid_total_length := by
    rw [load_frame]; exact h
  rcases receive_cases cfg rng s buffer l ab with
    ⟨s1, e, _⟩ | ⟨_, _, _, _, e⟩ | ⟨_, _, _, e⟩ | ⟨_, e⟩
  · rw [e]; simp [apdu_reset, io_usb_hid_init]
  · rw [e]
    have := factorize_lengths (first_state cfg (load cfg s buffer l) ab) 7
      (first_len cfg (load cfg s buffer l) l)
    simp only [first_state] at this
    simp only [first_state]
    omega
  · rw [e]
    have := factorize_lengths (load cfg s buffer l) 5 (next_len cfg (load cfg s buffer l) l)
    omega
  · rw [e]
    have := after_switch_lengths (load cfg s buffer l) none
    omega

theorem sent_emit (cfg : Platform) (s : State)
    (h : s.G_io_usb_hid_remaining_length ≠ 0 ∧ s.G_io_usb_hid_current_buffer ≠ 0) :
    io_usb_hid_sent cfg s =
      { s with
        G_io_usb_ep_buffer := sent_chunk cfg s
        G_io_usb_hid_current_buffer := s.G_io_usb_hid_current_buffer + sent_len cfg s
        G_io_usb_hid_remaining_length := s.G_io_usb_hid_remaining_length - sent_len cfg s
        G_io_usb_hid_sequence_number := (s.G_io_usb_hid_sequence_number + 1) % 4294967296
        sndfct_log := s.sndfct_log ++ [slice (sent_chunk cfg s) 0 cfg.sizeof_ep_buffer] } := by
  unfold io_usb_hid_sent
  rw [if_pos h]
  by_cases h0 : s.G_io_usb_hid_sequence_number = 0
  · rw [if_pos h0]
    unfold sent_chunk sent_len
    rw [if_pos h0, if_pos h0]
    simp only [sndfct, sent_header]
  · rw [if_neg h0]
    unfold sent_chunk sent_len
    rw [if_neg h0, if_neg h0]
    simp only [sndfct, sent_header]

theorem sent_idle (cfg : Platform) (s : State)
    (h : ¬ (s.G_io_usb_hid_remaining_length ≠ 0 ∧ s.G_io_usb_hid_current_buffer ≠ 0)) :
    io_usb_hid_sent cfg s =
      { s with
        G_io_usb_hid_sequence_number := 0
        G_io_usb_hid_remaining_length := 0
        G_io_usb_hid_current_buffer := 0
        apdu_state := APDU_IDLE } := by
  unfold io_usb_hid_sent
  rw [if_neg h]
  rfl

theorem sent_len_le (cfg : Platform) (s : State) :
    sent_len cfg s ≤ s.G_io_usb_hid_remaining_length := by
  unfold sent_len
  split_ifs <;> omega

theorem sent_keeps_bound (cfg : Platform) (s : State)
    (h : s.G_io_usb_hid_remaining_length ≤ s.G_io_usb_hid_total_length) :
    (io_usb_hid_sent cfg s).G_io_usb_hid_remaining_length ≤
      (io_usb_hid_sent cfg s).G_io_usb_hid_total_length := by
  by_cases hc : s.G_io_usb_hid_remaining_length ≠ 0 ∧ s.G_io_usb_hid_current_buffer ≠ 0
  · rw [sent_emit cfg s hc]
    simp only
    omega
  · rw [sent_idle cfg s hc]
    simp

theorem send_keeps_bound (cfg : Platform) (s : State) (sndlength apdu_buffer : Nat)
    (h : s.G_io_usb_hid_remaining_length ≤ s.G_io_usb_hid_total_length) :
    (io_usb_hid_send cfg s sndlength apdu_buffer).G_io_usb_hid_remaining_length ≤
      (io_usb_hid_send cfg s sndlength apdu_buffer).G_io_usb_hid_total_length := by
  unfold io_usb_hid_send
  split_ifs
  · exact sent_keeps_bound cfg _ (by simp)
  · exact h

theorem step_keeps_bound (cfg : Platform) (s : State) (c : Call)
    (h : s.G_io_usb_hid_remaining_length ≤ s.G_io_usb_hid_total_length) :
    (step cfg s c).G_io_usb_hid_remaining_length ≤ (step cfg s c).G_io_usb_hid_total_length := by
  cases c with
  | init => simp [step, io_usb_hid_init]
  | receive c => exact receive_keeps_bound cfg c.rng s c.buffer c.l c.apdu_buffer h
  | send n p => exact send_keeps_bound cfg s n p h
  | sent => exact sent_keeps_bound cfg s h

theorem run_keeps_bound (cfg : Platform) (calls : List Call) :
    ∀ s : State, s.G_io_usb_hid_remaining_length ≤ s.G_io_usb_hid_total_length →
      (run cfg s calls).G_io_usb_hid_remaining_length ≤
        (run cfg s calls).G_io_usb_hid_total_length := by
  induction calls with
  | nil => intro s h; exact h
  | cons c cs ih =>
    intro s h
    simp only [run, List.foldl_cons]
    exact ih _ (step_keeps_bound cfg s c h)

/-- C8 (state invariant).  From the all-zero session state, whatever the memory, the scratch
buffer, `apdu_state` and the `sndfct` log are, every finite sequence of calls of
`io_usb_hid_init`, `io_usb_hid_receive`, `io_usb_hid_send` and `io_usb_hid_sent`, with
arbitrary arguments, leaves `remaining_length ≤ total_length`. -/
theorem remaining_le_total (cfg : Platform) (ep : List Byte) (ast : io_apdu_state_e)
    (mem : Nat → Byte) (log : List (List Byte)) (calls : List Call) :
    (run cfg
      { G_io_usb_hid_total_length := 0
        G_io_usb_hid_channel := 0
        G_io_usb_hid_remaining_length := 0
        G_io_usb_hid_sequence_number := 0
        G_io_usb_hid_current_buffer := 0
        G_io_usb_ep_buffer := ep
        apdu_state := ast
        mem := mem
        sndfct_log := log } calls).G_io_usb_hid_remaining_length ≤
    (run cfg
      { G_io_usb_hid_total_length := 0
        G_io_usb_hid_channel := 0
        G_io_usb_hid_remaining_length := 0
        G_io_usb_hid_sequence_number := 0
        G_io_usb_hid_current_buffer := 0
        G_io_usb_ep_buffer := ep
        apdu_state := ast
        mem := mem
        sndfct_log := log } calls).G_io_usb_hid_total_length :=
  run_keeps_bound cfg calls _ (Nat.le_refl 0)

/-! ## Receptions in progress -/

theorem after_switch_more (s : State) (c : Option Copy)
    (h : s.G_io_usb_hid_remaining_length ≠ 0) :
    after_switch s c = { status := IO_USB_APDU_MORE_DATA, st := s, copy := c } := by
  unfold after_switch
  rw [if_pos h]

theorem after_switch_done (s : State) (c : Option Copy)
    (h : s.G_io_usb_hid_remaining_length = 0) :
    after_switch s c = { status := IO_USB_APDU_RECEIVED, st := io_usb_hid_init s, copy := c } := by
  unfold after_switch
  rw [if_neg (by simpa using h)]

theorem after_switch_status_more (s : State) (c : Option Copy)
    (h : (after_switch s c).status = IO_USB_APDU_MORE_DATA) :
    s.G_io_usb_hid_remaining_length ≠ 0 := by
  intro h0
  rw [after_switch_done s c h0] at h
  simp at h

theorem factorize_more (s : State) (h l : Nat)
    (hr : s.G_io_usb_hid_remaining_length - l ≠ 0) :
    factorize s h l =
      { status := IO_USB_APDU_MORE_DATA
        st :=
          { s with
            mem := mem_write s.mem s.G_io_usb_hid_current_buffer (slice s.G_io_usb_ep_buffer h l)
            G_io_usb_hid_current_buffer := s.G_io_usb_hid_current_buffer + l
            G_io_usb_hid_remaining_length := s.G_io_usb_hid_remaining_length - l
            G_io_usb_hid_sequence_number := (s.G_io_usb_hid_sequence_number + 1) % 4294967296 }
        copy := some { dst := s.G_io_usb_hid_current_buffer, src_off := h, n := l } } := by
  unfold factorize
  simp only
  rw [after_switch_more _ _ hr]

theorem factorize_done (s : State) (h l : Nat)
    (hr : s.G_io_usb_hid_remaining_length - l = 0) :
    factorize s h l =
      { status := IO_USB_APDU_RECEIVED
        st :=
          { s with
            mem := mem_write s.mem s.G_io_usb_hid_current_buffer (slice s.G_io_usb_ep_buffer h l)
            G_io_usb_hid_current_buffer := 0
            G_io_usb_hid_remaining_length := 0
            G_io_usb_hid_sequence_number := 0 }
        copy := some { dst := s.G_io_usb_hid_current_buffer, src_off := h, n := l } } := by
  unfold factorize
  simp only
  rw [after_switch_done _ _ hr]
  rfl

theorem first_len_le (cfg : Platform) (s : State) (l : Nat) :
    first_len cfg s l ≤ U2BE s.G_io_usb_ep_buffer 5 ∧
    first_len cfg s l ≤ sub_u32 cfg.sizeof_ep_buffer 7 := by
  unfold first_len
  exact ⟨le_trans (clamp_le_left _ _) (clamp_le _ _), clamp_le _ _⟩

theorem next_len_le (cfg : Platform) (s : State) (l : Nat) :
    next_len cfg s l ≤ s.G_io_usb_hid_remaining_length ∧
    next_len cfg s l ≤ sub_u32 cfg.sizeof_ep_buffer 5 := by
  unfold next_len
  exact ⟨le_trans (clamp_le_left _ _) (clamp_le _ _), clamp_le _ _⟩

theorem load_fields (cfg : Platform) (s : State) (buffer : Option (List Byte)) (l : Nat) :
    (load cfg s buffer l).G_io_usb_hid_total_length = s.G_io_usb_hid_total_length ∧
    (load cfg s buffer l).G_io_usb_hid_channel = s.G_io_usb_hid_channel ∧
    (load cfg s buffer l).G_io_usb_hid_remaining_length = s.G_io_usb_hid_remaining_length ∧
    (load cfg s buffer l).G_io_usb_hid_sequence_number = s.G_io_usb_hid_sequence_number ∧
    (load cfg s buffer l).G_io_usb_hid_current_buffer = s.G_io_usb_hid_current_buffer ∧
    (load cfg s buffer l).mem = s.mem ∧
    (load cfg s buffer l).apdu_state = s.apdu_state ∧
    (load cfg s buffer l).sndfct_log = s.sndfct_log := by
  rw [load_frame]
  simp

/-- One call on a reception in progress (`sequence_number ≠ 0`) that answers
`IO_USB_APDU_MORE_DATA`. -/
theorem inflight_step (cfg : Platform) (rng : Nat → Byte) (s : State)
    (buffer : Option (List Byte)) (l : Nat) (ab : Option apdu_buffer_t)
    (hs : s.G_io_usb_hid_sequence_number ≠ 0)
    (hm : (io_usb_hid_receive cfg rng s buffer l ab).status = IO_USB_APDU_MORE_DATA) :
    (io_usb_hid_receive cfg rng s buffer l ab).st.G_io_usb_hid_total_length
      = s.G_io_usb_hid_total_length ∧
    (io_usb_hid_receive cfg rng s buffer l ab).st.G_io_usb_hid_sequence_number ≠ 0 ∧
    (io_usb_hid_receive cfg rng s buffer l ab).st.G_io_usb_hid_sequence_number
      = s.G_io_usb_hid_sequence_number +
          (if (io_usb_hid_receive cfg rng s buffer l ab).copy.isSome then 1 else 0) ∧
    (io_usb_hid_receive cfg rng s buffer l ab).st.G_io_usb_hid_remaining_length
      + copied (io_usb_hid_receive cfg rng s buffer l ab) = s.G_io_usb_hid_remaining_length := by
  obtain ⟨ht, hc, hr, hq, hb, _, _, _⟩ := load_fields cfg s buffer l
  rcases receive_cases cfg rng s buffer l ab with
    ⟨s1, e, _⟩ | ⟨_, h0, _, _, e⟩ | ⟨_, _, hf, e⟩ | ⟨_, e⟩
  · rw [e] at hm; exact absurd hm (by simp [apdu_reset])
  · exact absurd h0 hs
  · have hle := (next_len_le cfg (load cfg s buffer l) l).1
    have hlt := U2BE_lt (scratch cfg s buffer l) 3
    rw [e] at hm ⊢
    by_cases hz : (load cfg s buffer l).G_io_usb_hid_remaining_length
        - next_len cfg (load cfg s buffer l) l = 0
    · rw [factorize_done _ _ _ hz] at hm; simp at hm
    · rw [factorize_more _ _ _ hz]
      simp only [copied, Option.isSome_some, if_true]
      rw [ht, hq]
      refine ⟨rfl, ?_, ?_, ?_⟩ <;> omega
  · rw [e] at hm ⊢
    have hz := after_switch_status_more _ _ hm
    rw [after_switch_more _ _ hz]
    simp only [copied, Option.isSome_none]
    rw [ht, hq, hr]
    simp [hs]

/-- The first call on an initialised session that answers `IO_USB_APDU_MORE_DATA` accepted a
first chunk. -/
theorem first_step (cfg : Platform) (rng : Nat → Byte) (s : State)
    (buffer : Option (List Byte)) (l : Nat) (ab : Option apdu_buffer_t)
    (hs : s.G_io_usb_hid_sequence_number = 0) (hr0 : s.G_io_usb_hid_remaining_length = 0)
    (hm : (io_usb_hid_receive cfg rng s buffer l ab).status = IO_USB_APDU_MORE_DATA) :
    (io_usb_hid_receive cfg rng s buffer l ab).copy.isSome = true ∧
    (io_usb_hid_receive cfg rng s buffer l ab).st.G_io_usb_hid_sequence_number = 1 ∧
    (io_usb_hid_receive cfg rng s buffer l ab).st.G_io_usb_hid_remaining_length
      + copied (io_usb_hid_receive cfg rng s buffer l ab)
      = (io_usb_hid_receive cfg rng s buffer l ab).st.G_io_usb_hid_total_length := by
  obtain ⟨ht, hc, hr, hq, hb, _, _, _⟩ := load_fields cfg s buffer l
  rcases receive_cases cfg rng s buffer l ab with
    ⟨s1, e, _⟩ | ⟨_, h0, _, _, e⟩ | ⟨_, h0, _, e⟩ | ⟨_, e⟩
  · rw [e] at hm; exact absurd hm (by simp [apdu_reset])
  · have hle := (first_len_le cfg (load cfg s buffer l) l).1
    rw [e] at hm ⊢
    by_cases hz : (first_state cfg (load cfg s buffer l) ab).G_io_usb_hid_remaining_length
        - first_len cfg (load cfg s buffer l) l = 0
    · rw [factorize_done _ _ _ hz] at hm; simp at hm
    · rw [factorize_more _ _ _ hz]
      simp only [copied, Option.isSome_some, first_state]
      rw [hq, hs]
      refine ⟨trivial, by norm_num, ?_⟩
      omega
  · exact absurd hs h0
  · rw [e] at hm
    have hz := after_switch_status_more _ _ hm
    rw [hr] at hz
    exact absurd hr0 hz

theorem inflight_run (cfg : Platform) (calls : List RxCall) :
    ∀ s : State, s.G_io_usb_hid_sequence_number ≠ 0 →
      (∀ r ∈ recv_trace cfg s calls, r.status = IO_USB_APDU_MORE_DATA) →
      (recv_final cfg s calls).G_io_usb_hid_sequence_number
        = s.G_io_usb_hid_sequence_number + accepted_count (recv_trace cfg s calls) ∧
      (recv_final cfg s calls).G_io_usb_hid_remaining_length
        + copied_total (recv_trace cfg s calls) = s.G_io_usb_hid_remaining_length ∧
      (recv_final cfg s calls).G_io_usb_hid_total_length = s.G_io_usb_hid_total_length := by
  induction calls with
  | nil =>
    intro s _ _
    simp [recv_final, recv_trace, accepted_count, copied_total]
  | cons c cs ih =>
    intro s hs hmore
    have hm : (io_usb_hid_receive cfg c.rng s c.buffer c.l c.apdu_buffer).status
        = IO_USB_APDU_MORE_DATA := hmore _ (by simp [recv_trace])
    obtain ⟨h1, h2, h3, h4⟩ := inflight_step cfg c.rng s c.buffer c.l c.apdu_buffer hs hm
    obtain ⟨i1, i2, i3⟩ := ih _ h2 (fun r hr => hmore r (by simp [recv_trace, hr]))
    simp only [recv_final, recv_trace, accepted_count, copied_total, List.map_cons,
      List.sum_cons, List.filter_cons] at i1 i2 i3 ⊢
    refine ⟨?_, ?_, ?_⟩
    · rw [i1, h3]
      split_ifs
      · simp; omega
      · simp
    · omega
    · rw [i3, h1]

/-- C9 (sequence monotonicity).  Start from an initialised session and make a non-empty series
of calls of `io_usb_hid_receive` that all answer `IO_USB_APDU_MORE_DATA`.  Then
`sequence_number` is the number `k` of data chunks accepted by these calls, and
`remaining_length` is `total_length` minus the sum of the byte counts they copied. -/
theorem sequence_monotonicity (cfg : Platform) (s0 : State) (calls : List RxCall)
    (hne : calls ≠ [])
    (hmore : ∀ r ∈ recv_trace cfg (io_usb_hid_init s0) calls, r.status = IO_USB_APDU_MORE_DATA) :
    (recv_final cfg (io_usb_hid_init s0) calls).G_io_usb_hid_sequence_number
      = accepted_count (recv_trace cfg (io_usb_hid_init s0) calls) ∧
    (recv_final cfg (io_usb_hid_init s0) calls).G_io_usb_hid_remaining_length
      = (recv_final cfg (io_usb_hid_init s0) calls).G_io_usb_hid_total_length
          - copied_total (recv_trace cfg (io_usb_hid_init s0) calls) ∧
    copied_total (recv_trace cfg (io_usb_hid_init s0) calls)
      ≤ (recv_final cfg (io_usb_hid_init s0) calls).G_io_usb_hid_total_length := by
  cases calls with
  | nil => exact absurd rfl hne
  | cons c cs =>
    have hm : (io_usb_hid_receive cfg c.rng (io_usb_hid_init s0) c.buffer c.l c.apdu_buffer).status
        = IO_USB_APDU_MORE_DATA := hmore _ (by simp [recv_trace])
    obtain ⟨h1, h2, h3⟩ :=
      first_step cfg c.rng (io_usb_hid_init s0) c.buffer c.l c.apdu_buffer rfl rfl hm
    obtain ⟨i1, i2, i3⟩ := inflight_run cfg cs _ (by rw [h2]; decide)
      (fun r hr => hmore r (by simp [recv_trace, hr]))
    simp only [recv_final, recv_trace, accepted_count, copied_total, List.map_cons,
      List.sum_cons, List.filter_cons, h1, if_true, List.length_cons] at i1 i2 i3 ⊢
    refine ⟨?_, ?_, ?_⟩ <;> omega

/-- Witness of C9: after the first two chunks of a nine-byte APDU, `sequence_number = 2` and
`remaining_length = 9 - (1 + 3)`. -/
theorem sequence_monotonicity_witness :
    (recv_final cfg8 (io_usb_hid_init (zero_state cfg8)) two_calls).G_io_usb_hid_sequence_number
      = accepted_count (recv_trace cfg8 (io_usb_hid_init (zero_state cfg8)) two_calls) ∧
    (recv_final cfg8 (io_usb_hid_init (zero_state cfg8)) two_calls).G_io_usb_hid_remaining_length
      = (recv_final cfg8 (io_usb_hid_init (zero_state cfg8)) two_calls).G_io_usb_hid_total_length
          - copied_total (recv_trace cfg8 (io_usb_hid_init (zero_state cfg8)) two_calls) ∧
    copied_total (recv_trace cfg8 (io_usb_hid_init (zero_state cfg8)) two_calls)
      ≤ (recv_final cfg8 (io_usb_hid_init (zero_state cfg8)) two_calls).G_io_usb_hid_total_length :=
  sequence_monotonicity cfg8 (zero_state cfg8) two_calls (by simp [two_calls]) (by decide)

/-! ## Bounds of the copies -/

theorem mem_write_outside (mem : Nat → Byte) (p : Nat) (src : List Byte) (a : Nat)
    (h : a < p ∨ p + src.length ≤ a) : mem_write mem p src a = mem a := by
  unfold mem_write
  rw [if_neg (by omega)]

theorem sub_u32_of_le (a b : Nat) (h : b ≤ a) : sub_u32 a b = a - b := by
  unfold sub_u32
  rw [if_neg (by omega)]

theorem recv_inv_step (cfg : Platform) (h7 : 7 ≤ cfg.sizeof_ep_buffer) (ab : Option apdu_buffer_t)
    (rng : Nat → Byte) (s : State) (buffer : Option (List Byte)) (l : Nat)
    (hinv : recv_inv cfg ab s) :
    recv_inv cfg ab (io_usb_hid_receive cfg rng s buffer l ab).st ∧
    (∀ c, (io_usb_hid_receive cfg rng s buffer l ab).copy = some c →
      copy_in_bounds cfg ab
        (io_usb_hid_receive cfg rng s buffer l ab).st.G_io_usb_hid_total_length c) ∧
    (∀ a, (a < apdu_buf cfg ab ∨ apdu_buf cfg ab + apdu_buf_len cfg ab ≤ a) →
      (io_usb_hid_receive cfg rng s buffer l ab).st.mem a = s.mem a) := by
  obtain ⟨ht, hc, hr, hq, hb, hmem, _, _⟩ := load_fields cfg s buffer l
  rcases receive_cases cfg rng s buffer l ab with
    ⟨s1, e, hm1⟩ | ⟨_, h0, _, hfit, e⟩ | ⟨_, h0, hf, e⟩ | ⟨_, e⟩
  · rw [e]
    refine ⟨Or.inl ⟨rfl, rfl⟩, ?_, ?_⟩
    · intro c hc; simp [apdu_reset] at hc
    · intro a _; simp [apdu_reset, io_usb_hid_init, hm1]
  · obtain ⟨hl1, hl2⟩ := first_len_le cfg (load cfg s buffer l) l
    rw [sub_u32_of_le _ _ h7] at hl2
    have hfit' : U2BE (load cfg s buffer l).G_io_usb_ep_buffer 5 ≤ apdu_buf_len cfg ab := hfit
    rw [e]
    by_cases hz : (first_state cfg (load cfg s buffer l) ab).G_io_usb_hid_remaining_length
        - first_len cfg (load cfg s buffer l) l = 0
    · rw [factorize_done _ _ _ hz]
      refine ⟨Or.inl ⟨rfl, rfl⟩, ?_, ?_⟩
      · intro c hc
        simp only [Option.some.injEq] at hc
        subst hc
        simp only [copy_in_bounds, first_state]
        omega
      · intro a ha
        simp only [first_state]
        rw [mem_write_outside _ _ _ _ (by rw [slice_length]; omega), hmem]
    · rw [factorize_more _ _ _ hz]
      simp only [first_state] at hz
      refine ⟨Or.inr ⟨?_, ?_⟩, ?_, ?_⟩
      · simp only [first_state]; rw [hq, h0]; decide
      · simp only [cursor_in_bounds, first_state]
        omega
      · intro c hc
        simp only [Option.some.injEq] at hc
        subst hc
        simp only [copy_in_bounds, first_state]
        omega
      · intro a ha
        simp only [first_state]
        rw [mem_write_outside _ _ _ _ (by rw [slice_length]; omega), hmem]
  · obtain ⟨hl1, hl2⟩ := next_len_le cfg (load cfg s buffer l) l
    rw [sub_u32_of_le _ _ (by omega)] at hl2
    have hlt := U2BE_lt (scratch cfg s buffer l) 3
    rcases hinv with ⟨hq0, _⟩ | ⟨_, hin⟩
    · exact absurd hq0 h0
    · obtain ⟨b1, b2, b3⟩ := hin
      rw [e]
      by_cases hz : (load cfg s buffer l).G_io_usb_hid_remaining_length
          - next_len cfg (load cfg s buffer l) l = 0
      · rw [factorize_done _ _ _ hz]
        refine ⟨Or.inl ⟨rfl, rfl⟩, ?_, ?_⟩
        · intro c hc
          simp only [Option.some.injEq] at hc
          subst hc
          simp only [copy_in_bounds]
          rw [hb, ht]
          omega
        · intro a ha
          simp only
          rw [mem_write_outside _ _ _ _ (by rw [slice_length, hb]; omega), hmem]
      · rw [factorize_more _ _ _ hz]
        refine ⟨Or.inr ⟨?_, ?_⟩, ?_, ?_⟩
        · simp only; rw [hq]; omega
        · simp only [cursor_in_bounds]
          rw [hb, ht, hr]
          rw [hr] at hl1
          omega
        · intro c hc
          simp only [Option.some.injEq] at hc
          subst hc
          simp only [copy_in_bounds]
          rw [hb, ht]
          omega
        · intro a ha
          simp only
          rw [mem_write_outside _ _ _ _ (by rw [slice_length, hb]; omega), hmem]
  · rw [e]
    by_cases hz : (load cfg s buffer l).G_io_usb_hid_remaining_length = 0
    · rw [after_switch_done _ _ hz]
      refine ⟨Or.inl ⟨rfl, rfl⟩, by simp, ?_⟩
      intro a _
      simp [io_usb_hid_init, hmem]
    · rw [after_switch_more _ _ hz]
      refine ⟨?_, by simp, ?_⟩
      · rcases hinv with ⟨_, hr0⟩ | ⟨hq0, hin⟩
        · rw [hr] at hz; exact absurd hr0 hz
        · refine Or.inr ⟨by simp only; rw [hq]; exact hq0, ?_⟩
          simp only [cursor_in_bounds] at hin ⊢
          rw [hb, ht, hr]
          exact hin
      · intro a _
        simp [hmem]

theorem recv_inv_run (cfg : Platform) (h7 : 7 ≤ cfg.sizeof_ep_buffer) (ab : Option apdu_buffer_t)
    (calls : List RxCall) :
    ∀ s : State, recv_inv cfg ab s → (∀ c ∈ calls, c.apdu_buffer = ab) →
      (∀ r ∈ recv_trace cfg s calls,
        recv_inv cfg ab r.st ∧
        (∀ c, r.copy = some c → copy_in_bounds cfg ab r.st.G_io_usb_hid_total_length c)) ∧
      (∀ a, (a < apdu_buf cfg ab ∨ apdu_buf cfg ab + apdu_buf_len cfg ab ≤ a) →
        (recv_final cfg s calls).mem a = s.mem a) := by
  induction calls with
  | nil =>
    intro s _ _
    simp [recv_trace, recv_final]
  | cons c cs ih =>
    intro s hinv hsame
    have hc : c.apdu_buffer = ab := hsame c (by simp)
    obtain ⟨k1, k2, k3⟩ := recv_inv_step cfg h7 ab c.rng s c.buffer c.l hinv
    obtain ⟨i1, i2⟩ := ih _ k1 (fun d hd => hsame d (by simp [hd]))
    simp only [recv_trace, recv_final, hc]
    refine ⟨?_, ?_⟩
    · intro r hr
      rcases List.mem_cons.mp hr with h | h
      · subst h
        exact ⟨k1, k2⟩
      · exact i1 r h
    · intro a ha
      rw [i2 a ha, k3 a ha]

/-- C2 (destination and scratch bounds).  Feed any finite sequence of chunks, of arbitrary
contents and lengths, to `io_usb_hid_receive`, from an initialised session and always with the
same destination (address `apdu_buf`, capacity `apdu_buf_len`); the scratch buffer holds at
least the seven header bytes.  Then every `memmove` performed writes only destination offsets
below `total_length ≤ capacity` and reads only scratch offsets below the size of the scratch
buffer; every state reached while a reception is in flight has its cursor inside the
destination with `(cursor offset) + remaining_length = total_length ≤ capacity`; and no byte
of memory outside the destination is modified. -/
theorem destination_and_scratch_bounds (cfg : Platform) (h7 : 7 ≤ cfg.sizeof_ep_buffer)
    (s0 : State) (ab : Option apdu_buffer_t) (calls : List RxCall)
    (hsame : ∀ c ∈ calls, c.apdu_buffer = ab) :
    (∀ r ∈ recv_trace cfg (io_usb_hid_init s0) calls,
      (∀ c, r.copy = some c → copy_in_bounds cfg ab r.st.G_io_usb_hid_total_length c) ∧
      ((r.st.G_io_usb_hid_remaining_length ≠ 0 ∨ r.st.G_io_usb_hid_sequence_number ≠ 0) →
        cursor_in_bounds cfg ab r.st)) ∧
    (∀ a, (a < apdu_buf cfg ab ∨ apdu_buf cfg ab + apdu_buf_len cfg ab ≤ a) →
      (recv_final cfg (io_usb_hid_init s0) calls).mem a = s0.mem a) := by
  obtain ⟨h1, h2⟩ := recv_inv_run cfg h7 ab calls (io_usb_hid_init s0) (Or.inl ⟨rfl, rfl⟩) hsame
  refine ⟨?_, h2⟩
  intro r hr
  obtain ⟨hinv, hcopy⟩ := h1 r hr
  refine ⟨hcopy, ?_⟩
  intro hfl
  rcases hinv with ⟨hq, hr0⟩ | ⟨_, hin⟩
  · rcases hfl with h | h
    · exact absurd hr0 h
    · exact absurd hq h
  · exact hin

/-- Witness of C2, on the first two chunks of a nine-byte APDU received into `dest16`. -/
theorem destination_and_scratch_bounds_witness :
    (∀ r ∈ recv_trace cfg8 (io_usb_hid_init (zero_state cfg8)) two_calls,
      (∀ c, r.copy = some c → copy_in_bounds cfg8 dest16 r.st.G_io_usb_hid_total_length c) ∧
      ((r.st.G_io_usb_hid_remaining_length ≠ 0 ∨ r.st.G_io_usb_hid_sequence_number ≠ 0) →
        cursor_in_bounds cfg8 dest16 r.st)) ∧
    (∀ a, (a < apdu_buf cfg8 dest16 ∨ apdu_buf cfg8 dest16 + apdu_buf_len cfg8 dest16 ≤ a) →
      (recv_final cfg8 (io_usb_hid_init (zero_state cfg8)) two_calls).mem a
        = (zero_state cfg8).mem a) :=
  destination_and_scratch_bounds cfg8 (by decide) (zero_state cfg8) dest16 two_calls
    (by decide)

/-! ## The chunk built by `io_usb_hid_sent` -/

theorem byte_mod (n : Nat) : byte (n % 256) = byte n := by
  apply Fin.ext
  simp [byte]

theorem expected_chunk_length (N c L : Nat) (a : List Byte) (k : Nat) :
    (expected_chunk N c L a k).length = N := by
  simp [expected_chunk]

theorem sent_chunk_length (cfg : Platform) (s : State) :
    (sent_chunk cfg s).length = cfg.sizeof_ep_buffer := by
  unfold sent_chunk sent_header
  split_ifs <;> simp

theorem payload_offset_succ (N k : Nat) :
    payload_offset N (k + 1) = payload_offset N k + (if k = 0 then N - 7 else N - 5) := by
  unfold payload_offset
  rcases Nat.eq_zero_or_pos k with h | h
  · subst h; simp
  · obtain ⟨j, rfl⟩ : ∃ j, k = j + 1 := ⟨k - 1, by omega⟩
    simp [Nat.add_mul]
    omega

/-- The chunk that `io_usb_hid_sent` builds for chunk number `k` of the APDU `a`. -/
theorem sent_chunk_eq (cfg : Platform) (N : Nat) (hB : cfg.sizeof_ep_buffer = N)
    (hH : cfg.IO_HID_EP_LENGTH = N) (h8 : 8 ≤ N) (s : State) (k L src : Nat) (a : List Byte)
    (hseq : s.G_io_usb_hid_sequence_number = k)
    (hrem : s.G_io_usb_hid_remaining_length = L - payload_offset N k)
    (hcur : s.G_io_usb_hid_current_buffer = src + payload_offset N k)
    (hmem : ∀ j, j < L → s.mem (src + j) = nth a j) :
    sent_chunk cfg s = expected_chunk N s.G_io_usb_hid_channel L a k := by
  apply list_ext_nth
  · rw [sent_chunk_length, expected_chunk_length, hB]
  · intro i hi
    rw [sent_chunk_length, hB] at hi
    unfold sent_chunk sent_header sent_len expected_chunk payload_length
    rw [hseq, hrem, hcur, hB, hH, sub_u32_of_le N 7 (by omega), sub_u32_of_le N 5 (by omega)]
    have hcases : i = 0 ∨ i = 1 ∨ i = 2 ∨ i = 3 ∨ i = 4 ∨ i = 5 ∨ i = 6 ∨ 7 ≤ i := by omega
    by_cases hk : k = 0
    · subst hk
      simp only [if_true, payload_offset, Nat.sub_zero, Nat.add_zero]
      rcases hcases with h | h | h | h | h | h | h | h
      · subst h
        simp [nth_poke, nth_poke1, nth_map_range, byte_mod, hi]
      · subst h
        simp [nth_poke, nth_poke1, nth_map_range, byte_mod, hi]
      · subst h
        simp [nth_poke, nth_poke1, nth_map_range, byte_mod, hi]
      · subst h
        simp [nth_poke, nth_poke1, nth_map_range, byte_mod, hi]
      · subst h
        simp [nth_poke, nth_poke1, nth_map_range, byte_mod, hi]
      · subst h
        simp [nth_poke, nth_poke1, nth_map_range, byte_mod, hi]
      · subst h
        simp [nth_poke, nth_poke1, nth_map_range, byte_mod, hi]
      · have e0 : i ≠ 0 := by omega
        have e1 : i ≠ 1 := by omega
        have e2 : i ≠ 2 := by omega
        have e3 : i ≠ 3 := by omega
        have e4 : i ≠ 4 := by omega
        have e5 : i ≠ 5 := by omega
        have e6 : i ≠ 6 := by omega
        simp only [nth_poke, nth_poke1, nth_replicate_zero, nth_map_range, nth_mem_read,
          poke1_length, poke_length, List.length_replicate, mem_read_length, hi, if_true,
          e0, e1, e2, e3, e4, e5, e6, if_false, h, true_and]
        by_cases hL : L > N - 7
        · simp only [hL, if_true, Nat.min_eq_right (Nat.le_of_lt hL)]
          have hp : i < 7 + (N - 7) := by omega
          have hq : i - 7 < N - 7 := by omega
          simp only [hp, hq, if_true]
          rw [hmem _ (by omega)]
        · simp only [hL, if_false, Nat.min_eq_left (Nat.le_of_not_lt hL)]
          by_cases hp : i < 7 + L
          · have hq : i - 7 < L := by omega
            simp only [hp, hq, if_true]
            rw [hmem _ (by omega)]
          · simp only [hp, if_false]
    · simp only [hk, if_false]
      rcases hcases with h | h | h | h | h | h | h | h
      · subst h
        simp [nth_poke, nth_poke1, nth_map_range, byte_mod, hi]
      · subst h
        simp [nth_poke, nth_poke1, nth_map_range, byte_mod, hi]
      · subst h
        simp [nth_poke, nth_poke1, nth_map_range, byte_mod, hi]
      · subst h
        simp [nth_poke, nth_poke1, nth_map_range, byte_mod, hi]
      · subst h
        simp [nth_poke, nth_poke1, nth_map_range, byte_mod, hi]
      all_goals
        have e0 : i ≠ 0 := by omega
        have e1 : i ≠ 1 := by omega
        have e2 : i ≠ 2 := by omega
        have e3 : i ≠ 3 := by omega
        have e4 : i ≠ 4 := by omega
        have e5 : 5 ≤ i := by omega
        simp only [nth_poke, nth_poke1, nth_replicate_zero, nth_map_range, nth_mem_read,
          poke1_length, poke_length, List.length_replicate, mem_read_length, hi, if_true,
          e0, e1, e2, e3, e4, e5, if_false, true_and]
        by_cases hL : L - payload_offset N k > N - 5
        · simp only [hL, if_true, Nat.min_eq_right (Nat.le_of_lt hL)]
          have hp : i < 5 + (N - 5) := by omega
          have hq : i - 5 < N - 5 := by omega
          simp only [hp, hq, if_true]
          rw [Nat.add_assoc, hmem _ (by omega)]
        · simp only [hL, if_false, Nat.min_eq_left (Nat.le_of_not_lt hL)]
          by_cases hp : i < 5 + (L - payload_offset N k)
          · have hq : i - 5 < L - payload_offset N k := by omega
            simp only [hp, hq, if_true]
            rw [Nat.add_assoc, hmem _ (by omega)]
          · simp only [hp, if_false]

/-! ## The sequence of chunks of a send -/

theorem le_payload_offset (N k : Nat) (h8 : 8 ≤ N) : k ≤ payload_offset N k := by
  unfold payload_offset
  split_ifs with h
  · omega
  · have h3 : (k - 1) * 3 ≤ (k - 1) * (N - 5) := Nat.mul_le_mul_left _ (by omega)
    omega

theorem payload_offset_lt_iff (N L k : Nat) (h8 : 8 ≤ N) (hL : 0 < L) :
    payload_offset N k < L ↔ k < chunk_count N L := by
  unfold payload_offset chunk_count ceil_div
  have hd : 0 < N - 5 := by omega
  rw [Nat.max_eq_left (Nat.zero_le _)]
  rcases Nat.eq_zero_or_pos k with h | h
  · subst h; simp [hL]
  · obtain ⟨j, rfl⟩ : ∃ j, k = j + 1 := ⟨k - 1, by omega⟩
    simp only [Nat.add_one_ne_zero, if_false, Nat.add_sub_cancel]
    have key : j < (L - (N - 7) + (N - 5) - 1) / (N - 5) ↔ j * (N - 5) < L - (N - 7) := by
      rw [Nat.lt_iff_add_one_le, Nat.le_div_iff_mul_le hd, Nat.add_mul]
      omega
    constructor
    · intro h1
      have : j < (L - (N - 7) + (N - 5) - 1) / (N - 5) := key.mpr (by omega)
      omega
    · intro h1
      have : j * (N - 5) < L - (N - 7) := key.mp (by omega)
      omega

theorem slice_full (xs : List Byte) : slice xs 0 xs.length = xs := by
  apply list_ext_nth
  · simp
  · intro i hi
    rw [slice_length] at hi
    rw [nth_slice, if_pos hi, Nat.zero_add]

theorem send_eq (cfg : Platform) (s : State) (L src : Nat) (hL : L ≠ 0) :
    io_usb_hid_send cfg s L src = io_usb_hid_sent cfg (armed s L src) := by
  unfold io_usb_hid_send
  rw [if_pos hL]
  rfl

theorem sender_state_zero (N : Nat) (s : State) (L src : Nat) (a : List Byte) :
    sender_state N s L src a 0 = armed s L src := by
  apply State.ext <;> simp [sender_state, armed, payload_offset]

/-- Emission of chunk `k`: one call of `io_usb_hid_sent` on the state reached after `k`
chunks, while some payload remains. -/
theorem sender_step (cfg : Platform) (N : Nat) (hB : cfg.sizeof_ep_buffer = N)
    (hH : cfg.IO_HID_EP_LENGTH = N) (h8 : 8 ≤ N) (s : State) (L src : Nat) (a : List Byte)
    (hsrc : src ≠ 0) (hL : L ≤ 65535) (hmem : ∀ j, j < L → s.mem (src + j) = nth a j)
    (k : Nat) (hk : payload_offset N k < L) :
    io_usb_hid_sent cfg (sender_state N s L src a k) = sender_state N s L src a (k + 1) := by
  have hkk := le_payload_offset N k h8
  have hmin : min L (payload_offset N k) = payload_offset N k := Nat.min_eq_right (by omega)
  have hne : (sender_state N s L src a k).G_io_usb_hid_remaining_length ≠ 0 ∧
      (sender_state N s L src a k).G_io_usb_hid_current_buffer ≠ 0 := by
    simp only [sender_state]
    omega
  have hchunk := sent_chunk_eq cfg N hB hH h8 (sender_state N s L src a k) k L src a rfl rfl
    (by simp only [sender_state]; rw [hmin]) hmem
  have hch : (sender_state N s L src a k).G_io_usb_hid_channel = s.G_io_usb_hid_channel := rfl
  rw [hch] at hchunk
  have hlen : sent_len cfg (sender_state N s L src a k)
      = min (L - payload_offset N k) (if k = 0 then N - 7 else N - 5) := by
    unfold sent_len
    simp only [sender_state]
    rw [hH, sub_u32_of_le N 7 (by omega), sub_u32_of_le N 5 (by omega)]
    split_ifs <;> omega
  have hsucc := payload_offset_succ N k
  rw [sent_emit cfg _ hne, hchunk, hlen]
  apply State.ext
  · rfl
  · rfl
  · simp only [sender_state]; split_ifs at hsucc ⊢ <;> omega
  · simp only [sender_state]; omega
  · simp only [sender_state]; split_ifs at hsucc ⊢ <;> omega
  · simp [sender_state]
  · rfl
  · rfl
  · have hsl : slice (expected_chunk N s.G_io_usb_hid_channel L a k) 0 cfg.sizeof_ep_buffer
        = expected_chunk N s.G_io_usb_hid_channel L a k := by
      have h := slice_full (expected_chunk N s.G_io_usb_hid_channel L a k)
      rw [expected_chunk_length] at h
      rw [hB]
      exact h
    simp only [sender_state]
    rw [hsl, List.range_succ, List.map_append, List.append_assoc]
    rfl

theorem sender_iterate (cfg : Platform) (N : Nat) (hB : cfg.sizeof_ep_buffer = N)
    (hH : cfg.IO_HID_EP_LENGTH = N) (h8 : 8 ≤ N) (s : State) (L src : Nat) (a : List Byte)
    (hsrc : src ≠ 0) (hL0 : 0 < L) (hL : L ≤ 65535)
    (hmem : ∀ j, j < L → s.mem (src + j) = nth a j) (k : Nat) (hk : k ≤ chunk_count N L) :
    (io_usb_hid_sent cfg)^[k] (armed s L src) = sender_state N s L src a k := by
  induction k with
  | zero => rw [Function.iterate_zero, id_eq, sender_state_zero]
  | succ j ih =>
    rw [Function.iterate_succ_apply', ih (by omega)]
    exact sender_step cfg N hB hH h8 s L src a hsrc hL hmem j
      ((payload_offset_lt_iff N L j h8 hL0).mpr (by omega))

theorem sender_last (cfg : Platform) (N : Nat) (h8 : 8 ≤ N) (s : State) (L src : Nat)
    (a : List Byte) (hL0 : 0 < L) :
    io_usb_hid_sent cfg (sender_state N s L src a (chunk_count N L)) = sender_done N s L src a := by
  have hge : ¬ payload_offset N (chunk_count N L) < L := by
    rw [payload_offset_lt_iff N L _ h8 hL0]; omega
  rw [sent_idle cfg _ (by simp only [sender_state]; omega)]
  rfl

theorem sender_done_fix (cfg : Platform) (N : Nat) (s : State) (L src : Nat) (a : List Byte) :
    io_usb_hid_sent cfg (sender_done N s L src a) = sender_done N s L src a := by
  rw [sent_idle cfg _ (by simp [sender_done])]
  rfl

theorem sender_done_iterate (cfg : Platform) (N : Nat) (h8 : 8 ≤ N) (s : State) (L src : Nat)
    (a : List Byte) (hL0 : 0 < L) (m : Nat) :
    (io_usb_hid_sent cfg)^[m + 1] (sender_state N s L src a (chunk_count N L))
      = sender_done N s L src a := by
  induction m with
  | zero => rw [Function.iterate_succ_apply', Function.iterate_zero, id_eq,
      sender_last cfg N h8 s L src a hL0]
  | succ j ih => rw [Function.iterate_succ_apply', ih, sender_done_fix]

theorem send_all_eq_armed (cfg : Platform) (s : State) (L src n : Nat) (hL : L ≠ 0) :
    send_all cfg s L src n = (io_usb_hid_sent cfg)^[n + 1] (armed s L src) := by
  unfold send_all
  rw [send_eq cfg s L src hL, Function.iterate_succ_apply]

/-- While chunks remain, `n` acknowledgements after `io_usb_hid_send` leave the sender in the
state reached after `n + 1` chunks. -/
theorem send_all_early (cfg : Platform) (N : Nat) (hB : cfg.sizeof_ep_buffer = N)
    (hH : cfg.IO_HID_EP_LENGTH = N) (h8 : 8 ≤ N) (s : State) (L src : Nat) (a : List Byte)
    (hsrc : src ≠ 0) (hL0 : 0 < L) (hL : L ≤ 65535)
    (hmem : ∀ j, j < L → s.mem (src + j) = nth a j) (n : Nat) (hn : n + 1 ≤ chunk_count N L) :
    send_all cfg s L src n = sender_state N s L src a (n + 1) := by
  rw [send_all_eq_armed cfg s L src n (by omega)]
  exact sender_iterate cfg N hB hH h8 s L src a hsrc hL0 hL hmem (n + 1) hn

/-- Once every chunk was emitted, further acknowledgements leave the sender idle. -/
theorem send_all_late (cfg : Platform) (N : Nat) (hB : cfg.sizeof_ep_buffer = N)
    (hH : cfg.IO_HID_EP_LENGTH = N) (h8 : 8 ≤ N) (s : State) (L src : Nat) (a : List Byte)
    (hsrc : src ≠ 0) (hL0 : 0 < L) (hL : L ≤ 65535)
    (hmem : ∀ j, j < L → s.mem (src + j) = nth a j) (n : Nat) (hn : chunk_count N L ≤ n) :
    send_all cfg s L src n = sender_done N s L src a := by
  rw [send_all_eq_armed cfg s L src n (by omega)]
  obtain ⟨m, hm⟩ : ∃ m, n + 1 = (m + 1) + chunk_count N L := ⟨n - chunk_count N L, by omega⟩
  rw [hm, Function.iterate_add_apply,
    sender_iterate cfg N hB hH h8 s L src a hsrc hL0 hL hmem _ (Nat.le_refl _)]
  exact sender_done_iterate cfg N h8 s L src a hL0 m

theorem emitted_sender_state (N : Nat) (s : State) (L src : Nat) (a : List Byte) (k : Nat) :
    emitted s (sender_state N s L src a k)
      = (List.range k).map (expected_chunk N s.G_io_usb_hid_channel L a) := by
  simp [emitted, sender_state]

theorem emitted_sender_done (N : Nat) (s : State) (L src : Nat) (a : List Byte) :
    emitted s (sender_done N s L src a)
      = (List.range (chunk_count N L)).map (expected_chunk N s.G_io_usb_hid_channel L a) := by
  simp [emitted, sender_done, sender_state]

/-- The chunks emitted by `io_usb_hid_send` and `n` further calls of `io_usb_hid_sent`. -/
theorem emitted_send_all (cfg : Platform) (N : Nat) (hB : cfg.sizeof_ep_buffer = N)
    (hH : cfg.IO_HID_EP_LENGTH = N) (h8 : 8 ≤ N) (s : State) (L src : Nat) (a : List Byte)
    (hsrc : src ≠ 0) (hL0 : 0 < L) (hL : L ≤ 65535)
    (hmem : ∀ j, j < L → s.mem (src + j) = nth a j) (n : Nat) :
    emitted s (send_all cfg s L src n)
      = (List.range (min (n + 1) (chunk_count N L))).map
          (expected_chunk N s.G_io_usb_hid_channel L a) := by
  by_cases hn : n + 1 ≤ chunk_count N L
  · rw [send_all_early cfg N hB hH h8 s L src a hsrc hL0 hL hmem n hn, emitted_sender_state,
      Nat.min_eq_left hn]
  · rw [send_all_late cfg N hB hH h8 s L src a hsrc hL0 hL hmem n (by omega), emitted_sender_done,
      Nat.min_eq_right (by omega)]

theorem mem_of_mem_read (mem : Nat → Byte) (src : Nat) (a : List Byte)
    (h : mem_read mem src a.length = a) : ∀ j, j < a.length → mem (src + j) = nth a j := by
  intro j hj
  have := nth_mem_read mem src a.length j
  rw [h, if_pos hj] at this
  exact this.symm

theorem U2BE_expected_chunk (N c L : Nat) (a : List Byte) (k : Nat) (h8 : 8 ≤ N) :
    U2BE (expected_chunk N c L a k) 0 = c % 65536 ∧
    (nth (expected_chunk N c L a k) 2).val = 0x05 ∧
    U2BE (expected_chunk N c L a k) 3 = k % 65536 ∧
    (k = 0 → U2BE (expected_chunk N c L a k) 5 = L % 65536) := by
  have h0 : 0 < N := by omega
  have h1 : 1 < N := by omega
  have h2 : 2 < N := by omega
  have h3 : 3 < N := by omega
  have h4 : 4 < N := by omega
  have h5 : 5 < N := by omega
  have h6 : 6 < N := by omega
  refine ⟨?_, ?_, ?_, ?_⟩
  · simp only [U2BE, expected_chunk, nth_map_range, h0, h1, if_true, byte_val]
    simp [byte_val]
    omega
  · simp only [expected_chunk, nth_map_range, h2, if_true, byte_val]
    simp [byte_val]
  · simp only [U2BE, expected_chunk, nth_map_range, h3, h4, if_true, byte_val]
    simp [byte_val]
    omega
  · intro hk
    subst hk
    simp only [U2BE, expected_chunk, nth_map_range, h5, h6, if_true, byte_val]
    simp [byte_val]
    omega

/-- C6 (fragment layout).  With chunks of `N ≥ 8` bytes (`N` is both `IO_HID_EP_LENGTH` and
the size of the scratch buffer), an APDU `a` of `0 < L ≤ 65535` bytes stored at a non-null
address and a session on channel `c`: the `k`-th chunk handed to `sndfct` after
`io_usb_hid_send` (for every `k` below the number of chunks, once `k` acknowledgements came)
is `expected_chunk N c L a k`, that is `c` on bytes `[0..2)`, `0x05` on byte `2`, `k` on bytes
`[3..5)`, then `L` on bytes `[5..7)` and `a[0 .. min(L, N-7))` for `k = 0`, or the
`min(remaining, N-5)` bytes of `a` from offset `(N-7) + (k-1)(N-5)` for `k > 0`, and zero
everywhere else; the two-byte fields read back big endian as `c`, `k` and `L`. -/
theorem fragment_layout (cfg : Platform) (N : Nat) (hB : cfg.sizeof_ep_buffer = N)
    (hH : cfg.IO_HID_EP_LENGTH = N) (h8 : 8 ≤ N) (s : State) (src : Nat) (hsrc : src ≠ 0)
    (a : List Byte) (ha0 : 0 < a.length) (haL : a.length ≤ 65535)
    (hmem : mem_read s.mem src a.length = a)
    (n k : Nat) (hkn : k ≤ n) (hk : k < chunk_count N a.length) :
    (emitted s (send_all cfg s a.length src n))[k]?
      = some (expected_chunk N s.G_io_usb_hid_channel a.length a k) ∧
    U2BE (expected_chunk N s.G_io_usb_hid_channel a.length a k) 0
      = s.G_io_usb_hid_channel % 65536 ∧
    U2BE (expected_chunk N s.G_io_usb_hid_channel a.length a k) 3 = k ∧
    (k = 0 → U2BE (expected_chunk N s.G_io_usb_hid_channel a.length a k) 5 = a.length) ∧
    (0 < k → payload_offset N k = (N - 7) + (k - 1) * (N - 5)) := by
  have hpo := (payload_offset_lt_iff N a.length k h8 ha0).mpr hk
  have hkk := le_payload_offset N k h8
  obtain ⟨u0, _, u3, u5⟩ := U2BE_expected_chunk N s.G_io_usb_hid_channel a.length a k h8
  refine ⟨?_, u0, ?_, ?_, ?_⟩
  · rw [emitted_send_all cfg N hB hH h8 s a.length src a hsrc ha0 haL
      (mem_of_mem_read s.mem src a hmem) n]
    rw [List.getElem?_map, List.getElem?_range (by omega)]
    rfl
  · rw [u3]; omega
  · intro h0; rw [u5 h0]; omega
  · intro h0
    unfold payload_offset
    rw [if_neg (by omega)]

/-- Witness of C6: the second chunk of the three-byte APDU `apdu3` sent in 8-byte chunks. -/
theorem fragment_layout_witness :
    (emitted sender8 (send_all cfg8 sender8 apdu3.length 1000 1))[1]?
      = some (expected_chunk 8 sender8.G_io_usb_hid_channel apdu3.length apdu3 1) ∧
    U2BE (expected_chunk 8 sender8.G_io_usb_hid_channel apdu3.length apdu3 1) 0
      = sender8.G_io_usb_hid_channel % 65536 ∧
    U2BE (expected_chunk 8 sender8.G_io_usb_hid_channel apdu3.length apdu3 1) 3 = 1 ∧
    (1 = 0 → U2BE (expected_chunk 8 sender8.G_io_usb_hid_channel apdu3.length apdu3 1) 5
      = apdu3.length) ∧
    (0 < 1 → payload_offset 8 1 = (8 - 7) + (1 - 1) * (8 - 5)) :=
  fragment_layout cfg8 8 rfl rfl (by decide) sender8 1000 (by decide) apdu3 (by decide)
    (by decide) (by decide) 1 1 (by decide) (by decide)

/-- C7 (chunk count and completion).  With chunks of `N ≥ 8` bytes and an APDU of
`0 < L ≤ 65535` bytes at a non-null address, `io_usb_hid_send` followed by `n` calls of
`io_usb_hid_sent` has emitted `min (n + 1) K` chunks, where
`K = 1 + ceil(max(L - (N-7), 0) / (N-5))`: exactly `K` chunks are emitted.  The call of
`io_usb_hid_sent` that follows the last chunk emits nothing and leaves
`sequence_number = 0`, `remaining_length = 0`, a `NULL` cursor and `apdu_state = APDU_IDLE`.
For `N = 32` and `L = 40`, `K = 2` and the chunks carry 25 and 15 payload bytes. -/
theorem chunk_count_and_completion (cfg : Platform) (N : Nat) (hB : cfg.sizeof_ep_buffer = N)
    (hH : cfg.IO_HID_EP_LENGTH = N) (h8 : 8 ≤ N) (s : State) (src : Nat) (hsrc : src ≠ 0)
    (a : List Byte) (ha0 : 0 < a.length) (haL : a.length ≤ 65535)
    (hmem : mem_read s.mem src a.length = a) :
    (∀ n, (emitted s (send_all cfg s a.length src n)).length
      = min (n + 1) (chunk_count N a.length)) ∧
    (emitted s (io_usb_hid_sent cfg (send_all cfg s a.length src (chunk_count N a.length - 1)))
      = emitted s (send_all cfg s a.length src (chunk_count N a.length - 1))) ∧
    (io_usb_hid_sent cfg (send_all cfg s a.length src
      (chunk_count N a.length - 1))).G_io_usb_hid_sequence_number = 0 ∧
    (io_usb_hid_sent cfg (send_all cfg s a.length src
      (chunk_count N a.length - 1))).G_io_usb_hid_remaining_length = 0 ∧
    (io_usb_hid_sent cfg (send_all cfg s a.length src
      (chunk_count N a.length - 1))).G_io_usb_hid_current_buffer = 0 ∧
    (io_usb_hid_sent cfg (send_all cfg s a.length src
      (chunk_count N a.length - 1))).apdu_state = APDU_IDLE ∧
    chunk_count 32 40 = 2 ∧ payload_length 32 40 0 = 25 ∧ payload_length 32 40 1 = 15 := by
  have hm := mem_of_mem_read s.mem src a hmem
  have hK : 1 ≤ chunk_count N a.length := by unfold chunk_count; omega
  have hlast : send_all cfg s a.length src (chunk_count N a.length - 1)
      = sender_state N s a.length src a (chunk_count N a.length) := by
    rw [send_all_early cfg N hB hH h8 s a.length src a hsrc ha0 haL hm _ (by omega)]
    congr 1
    omega
  refine ⟨?_, ?_, ?_, ?_, ?_, ?_, by decide, by decide, by decide⟩
  · intro n
    rw [emitted_send_all cfg N hB hH h8 s a.length src a hsrc ha0 haL hm n]
    simp
  · rw [hlast, sender_last cfg N h8 s a.length src a ha0, emitted_sender_done,
      emitted_sender_state]
  · rw [hlast, sender_last cfg N h8 s a.length src a ha0]; rfl
  · rw [hlast, sender_last cfg N h8 s a.length src a ha0]; rfl
  · rw [hlast, sender_last cfg N h8 s a.length src a ha0]; rfl
  · rw [hlast, sender_last cfg N h8 s a.length src a ha0]; rfl

/-- Witness of C7: the three-byte APDU `apdu3` sent in 8-byte chunks. -/
theorem chunk_count_and_completion_witness :
    (∀ n, (emitted sender8 (send_all cfg8 sender8 apdu3.length 1000 n)).length
      = min (n + 1) (chunk_count 8 apdu3.length)) ∧
    (emitted sender8 (io_usb_hid_sent cfg8
        (send_all cfg8 sender8 apdu3.length 1000 (chunk_count 8 apdu3.length - 1)))
      = emitted sender8
        (send_all cfg8 sender8 apdu3.length 1000 (chunk_count 8 apdu3.length - 1))) ∧
    (io_usb_hid_sent cfg8 (send_all cfg8 sender8 apdu3.length 1000
      (chunk_count 8 apdu3.length - 1))).G_io_usb_hid_sequence_number = 0 ∧
    (io_usb_hid_sent cfg8 (send_all cfg8 sender8 apdu3.length 1000
      (chunk_count 8 apdu3.length - 1))).G_io_usb_hid_remaining_length = 0 ∧
    (io_usb_hid_sent cfg8 (send_all cfg8 sender8 apdu3.length 1000
      (chunk_count 8 apdu3.length - 1))).G_io_usb_hid_current_buffer = 0 ∧
    (io_usb_hid_sent cfg8 (send_all cfg8 sender8 apdu3.length 1000
      (chunk_count 8 apdu3.length - 1))).apdu_state = APDU_IDLE ∧
    chunk_count 32 40 = 2 ∧ payload_length 32 40 0 = 25 ∧ payload_length 32 40 1 = 15 :=
  chunk_count_and_completion cfg8 8 rfl rfl (by decide) sender8 1000 (by decide) apdu3
    (by decide) (by decide) (by decide)

/-! ## Reassembly of the emitted chunks -/

theorem scratch_full (cfg : Platform) (N : Nat) (hB : cfg.sizeof_ep_buffer = N) (s : State)
    (chunk : List Byte) (hlen : chunk.length = N) :
    scratch cfg s (some chunk) N = chunk := by
  unfold scratch load
  simp only [hB, Nat.min_self]
  rw [List.take_of_length_le (by omega)]
  apply list_ext_nth
  · simp [hlen]
  · intro i hi
    rw [poke_length, List.length_replicate] at hi
    rw [nth_poke, List.length_replicate, if_pos hi, if_pos (by omega), Nat.sub_zero]

theorem sub_u16_of_le (a b : Nat) (h : b ≤ a) : sub_u16 a b = a - b := by
  unfold sub_u16
  rw [if_neg (by omega)]

theorem clamp_eq_min (l b : Nat) : clamp l b = min l b := by
  unfold clamp
  split_ifs <;> omega

theorem nth_expected_payload (N c L : Nat) (a : List Byte) (k i : Nat) (h8 : 8 ≤ N)
    (hi : i < payload_length N L k) :
    nth (expected_chunk N c L a k) ((if k = 0 then 7 else 5) + i)
      = nth a (payload_offset N k + i) := by
  unfold expected_chunk
  rw [nth_map_range]
  by_cases hk : k = 0
  · subst hk
    have hp : payload_length N L 0 ≤ N - 7 := by
      unfold payload_length; simp only [if_true]; omega
    have hN : 7 + i < N := by omega
    have e0 : 7 + i ≠ 0 := by omega
    have e1 : 7 + i ≠ 1 := by omega
    have e2 : 7 + i ≠ 2 := by omega
    have e3 : 7 + i ≠ 3 := by omega
    have e4 : 7 + i ≠ 4 := by omega
    have e5 : 7 + i ≠ 5 := by omega
    have e6 : 7 + i ≠ 6 := by omega
    have hin : 7 + i < 7 + payload_length N L 0 := by omega
    simp only [if_true, payload_offset, Nat.zero_add, hN, e0, e1, e2, e3, e4, e5, e6, hin,
      if_false, Nat.add_sub_cancel_left]
  · have hp : payload_length N L k ≤ N - 5 := by
      unfold payload_length; simp only [hk, if_false]; omega
    have hN : 5 + i < N := by omega
    have e0 : 5 + i ≠ 0 := by omega
    have e1 : 5 + i ≠ 1 := by omega
    have e2 : 5 + i ≠ 2 := by omega
    have e3 : 5 + i ≠ 3 := by omega
    have e4 : 5 + i ≠ 4 := by omega
    have hin : 5 + i < 5 + payload_length N L k := by omega
    simp only [hk, if_false, hN, e0, e1, e2, e3, e4, hin, if_true, Nat.add_sub_cancel_left]

theorem payload_offset_succ_min (N L k : Nat) (hk : payload_offset N k < L) :
    min L (payload_offset N (k + 1)) = payload_offset N k + payload_length N L k := by
  rw [payload_offset_succ]
  unfold payload_length
  by_cases h : k = 0
  · subst h
    simp only [if_true, payload_offset] at hk ⊢
    omega
  · simp only [h, if_false]
    omega

theorem mem_after_copy (mem : Nat → Byte) (dst off len h : Nat) (E a : List Byte)
    (hold : ∀ i, i < off → mem (dst + i) = nth a i)
    (hnew : ∀ j, j < len → nth E (h + j) = nth a (off + j)) :
    ∀ i, i < off + len → mem_write mem (dst + off) (slice E h len) (dst + i) = nth a i := by
  intro i hi
  unfold mem_write
  rw [slice_length]
  by_cases hlt : i < off
  · rw [if_neg (by omega)]
    exact hold i hlt
  · rw [if_pos (by omega), nth_slice, if_pos (by omega)]
    have e : dst + i - (dst + off) = i - off := by omega
    rw [e, hnew (i - off) (by omega)]
    congr 1
    omega

/-- One call of `io_usb_hid_receive` on chunk `k` of the APDU `a`, by a receiver that holds
the first `k` chunks. -/
theorem recv_chunk (cfg : Platform) (N : Nat) (hB : cfg.sizeof_ep_buffer = N) (h8 : 8 ≤ N)
    (rng : Nat → Byte) (s : State) (c L dst C : Nat) (a : List Byte) (k : Nat)
    (hLC : L ≤ C) (hC : C ≤ 65535) (hk : payload_offset N k < L)
    (hpre : receiver_pre N L dst a k s) :
    (io_usb_hid_receive cfg rng s (some (expected_chunk N c L a k)) N
      (some { buf := dst, len := C })).st.G_io_usb_hid_total_length = L ∧
    (∀ i, i < min L (payload_offset N (k + 1)) →
      (io_usb_hid_receive cfg rng s (some (expected_chunk N c L a k)) N
        (some { buf := dst, len := C })).st.mem (dst + i) = nth a i) ∧
    (payload_offset N (k + 1) < L →
      (io_usb_hid_receive cfg rng s (some (expected_chunk N c L a k)) N
        (some { buf := dst, len := C })).status = IO_USB_APDU_MORE_DATA ∧
      receiver_pre N L dst a (k + 1)
        (io_usb_hid_receive cfg rng s (some (expected_chunk N c L a k)) N
          (some { buf := dst, len := C })).st) ∧
    (¬ payload_offset N (k + 1) < L →
      (io_usb_hid_receive cfg rng s (some (expected_chunk N c L a k)) N
        (some { buf := dst, len := C })).status = IO_USB_APDU_RECEIVED) := by
  have hkk := le_payload_offset N k h8
  have hs := scratch_full cfg N hB s (expected_chunk N c L a k) (expected_chunk_length N c L a k)
  obtain ⟨_, utag, useq, ulen⟩ := U2BE_expected_chunk N c L a k h8
  rw [Nat.mod_eq_of_lt (by omega)] at useq
  obtain ⟨hseq, hrest⟩ := hpre
  obtain ⟨ht, hc, hr, hq, hb, hmem, _, _⟩ :=
    load_fields cfg s (some (expected_chunk N c L a k)) N
  have hep : (load cfg s (some (expected_chunk N c L a k)) N).G_io_usb_ep_buffer
      = expected_chunk N c L a k := hs
  have hmin := payload_offset_succ_min N L k hk
  have hplen : ∀ j, j < payload_length N L k →
      nth (expected_chunk N c L a k) ((if k = 0 then 7 else 5) + j)
        = nth a (payload_offset N k + j) :=
    fun j hj => nth_expected_payload N c L a k j h8 hj
  rw [receive_eq_case_data cfg rng s _ N _ (by rw [hs]; exact utag)]
  by_cases hk0 : k = 0
  · subst hk0
    have hcap : apdu_buf_len cfg (some { buf := dst, len := C }) = C := by
      simp only [apdu_buf_len]; omega
    have hlen5 : U2BE (expected_chunk N c L a 0) 5 = L := by
      rw [ulen rfl, Nat.mod_eq_of_lt (by omega)]
    rw [case_data_first cfg _ N _ (by rw [hep, hq, hseq, useq]) (by rw [hq, hseq])
      (by rw [hep, hlen5, hcap]; exact hLC)]
    have hfl : first_len cfg (load cfg s (some (expected_chunk N c L a 0)) N) N
        = payload_length N L 0 := by
      unfold first_len payload_length
      rw [hep, hlen5, hB, sub_u16_of_le N 5 (by omega), sub_u16_of_le (N - 5) 2 (by omega),
        sub_u32_of_le N 7 (by omega), clamp_eq_min, clamp_eq_min]
      simp only [if_true]
      omega
    rw [hfl]
    have hpo0 : payload_offset N 0 = 0 := by simp [payload_offset]
    rw [hpo0] at hmin hk
    simp only [hpo0, if_true, Nat.zero_add] at hplen
    clear hrest
    have hmemw := mem_after_copy s.mem dst 0 (payload_length N L 0) 7
      (expected_chunk N c L a 0) a (fun i hi => absurd hi (Nat.not_lt_zero i))
      (by intro j hj; rw [hplen j hj, Nat.zero_add])
    rw [Nat.add_zero, Nat.zero_add] at hmemw
    by_cases hz : (first_state cfg (load cfg s (some (expected_chunk N c L a 0)) N)
        (some { buf := dst, len := C })).G_io_usb_hid_remaining_length
        - payload_length N L 0 = 0
    · have hz' : L - payload_length N L 0 = 0 := by
        simp only [first_state] at hz; rw [hep, hlen5] at hz; exact hz
      rw [factorize_done _ _ _ hz]
      simp only [first_state, apdu_buf]
      rw [hep, hlen5, hmem]
      refine ⟨rfl, ?_, ?_, ?_⟩
      · intro i hi; exact hmemw i (by omega)
      · intro h; omega
      · intro _; trivial
    · have hz' : L - payload_length N L 0 ≠ 0 := by
        simp only [first_state] at hz; rw [hep, hlen5] at hz; exact hz
      rw [factorize_more _ _ _ hz]
      simp only [first_state, apdu_buf, receiver_pre]
      rw [hep, hlen5, hmem, hq, hseq]
      refine ⟨rfl, ?_, ?_, ?_⟩
      · intro i hi; exact hmemw i (by omega)
      · intro h
        refine ⟨trivial, by norm_num, ?_⟩
        intro _
        refine ⟨rfl, by omega, by omega, ?_⟩
        intro i hi
        exact hmemw i (by omega)
      · intro h; omega
  · obtain ⟨p1, p2, p3, p4⟩ := hrest hk0
    rw [case_data_next cfg _ N _ (by rw [hep, hq, hseq, useq]) (by rw [hq, hseq]; exact hk0)]
    have hnl : next_len cfg (load cfg s (some (expected_chunk N c L a k)) N) N
        = payload_length N L k := by
      unfold next_len payload_length
      rw [hr, p2, hB, sub_u16_of_le N 5 (by omega), sub_u32_of_le N 5 (by omega),
        clamp_eq_min, clamp_eq_min]
      simp only [hk0, if_false]
      omega
    rw [hnl]
    simp only [hk0, if_false] at hplen
    have hmemw := mem_after_copy s.mem dst (payload_offset N k) (payload_length N L k) 5
      (expected_chunk N c L a k) a p4 hplen
    by_cases hz : (load cfg s (some (expected_chunk N c L a k)) N).G_io_usb_hid_remaining_length
        - payload_length N L k = 0
    · have hz' : L - payload_offset N k - payload_length N L k = 0 := by
        rw [hr, p2] at hz; exact hz
      rw [factorize_done _ _ _ hz]
      simp only
      rw [hep, hmem, hb, p3, ht, p1]
      refine ⟨rfl, ?_, ?_, ?_⟩
      · intro i hi; exact hmemw i (by omega)
      · intro h; omega
      · intro _; trivial
    · have hz' : L - payload_offset N k - payload_length N L k ≠ 0 := by
        rw [hr, p2] at hz; exact hz
      rw [factorize_more _ _ _ hz]
      simp only [receiver_pre]
      rw [hep, hmem, hb, p3, ht, p1, hq, hseq, hr, p2]
      refine ⟨rfl, ?_, ?_, ?_⟩
      · intro i hi; exact hmemw i (by omega)
      · intro h
        refine ⟨trivial, by omega, ?_⟩
        intro _
        refine ⟨rfl, by omega, by omega, ?_⟩
        intro i hi
        exact hmemw i (by omega)
      · intro h; omega

theorem recv_chunks (cfg : Platform) (N : Nat) (hB : cfg.sizeof_ep_buffer = N) (h8 : 8 ≤ N)
    (rng : Nat → Byte) (c L dst C : Nat) (a : List Byte) (hL0 : 0 < L) (hLC : L ≤ C)
    (hC : C ≤ 65535) (m : Nat) :
    ∀ (j : Nat) (s : State), j + (m + 1) = chunk_count N L → receiver_pre N L dst a j s →
      (recv_trace cfg s (feed_calls rng N (some { buf := dst, len := C })
          ((List.range' j (m + 1)).map (expected_chunk N c L a)))).map Rx.status
        = List.replicate m IO_USB_APDU_MORE_DATA ++ [IO_USB_APDU_RECEIVED] ∧
      (recv_final cfg s (feed_calls rng N (some { buf := dst, len := C })
          ((List.range' j (m + 1)).map (expected_chunk N c L a)))).G_io_usb_hid_total_length
        = L ∧
      (∀ i, i < L →
        (recv_final cfg s (feed_calls rng N (some { buf := dst, len := C })
          ((List.range' j (m + 1)).map (expected_chunk N c L a)))).mem (dst + i) = nth a i) := by
  induction m with
  | zero =>
    intro j s hj hpre
    have hk : payload_offset N j < L := (payload_offset_lt_iff N L j h8 hL0).mpr (by omega)
    have hlast : ¬ payload_offset N (j + 1) < L := by
      rw [payload_offset_lt_iff N L (j + 1) h8 hL0]; omega
    obtain ⟨r1, r2, _, r4⟩ := recv_chunk cfg N hB h8 rng s c L dst C a j hLC hC hk hpre
    simp only [List.range', List.map_cons, List.map_nil, feed_calls, recv_trace, recv_final,
      List.replicate_zero, List.nil_append]
    refine ⟨by rw [r4 hlast], r1, ?_⟩
    intro i hi
    exact r2 i (by omega)
  | succ m ih =>
    intro j s hj hpre
    have hk : payload_offset N j < L := (payload_offset_lt_iff N L j h8 hL0).mpr (by omega)
    have hnext : payload_offset N (j + 1) < L :=
      (payload_offset_lt_iff N L (j + 1) h8 hL0).mpr (by omega)
    obtain ⟨_, _, r3, _⟩ := recv_chunk cfg N hB h8 rng s c L dst C a j hLC hC hk hpre
    obtain ⟨r5, r6⟩ := r3 hnext
    obtain ⟨i1, i2, i3⟩ := ih (j + 1) _ (by omega) r6
    rw [List.range'_succ]
    simp only [List.map_cons, feed_calls, recv_trace, recv_final, List.replicate_succ,
      List.cons_append] at i1 i2 i3 ⊢
    exact ⟨by rw [r5, i1], i2, i3⟩

/-- C1 (round trip).  With chunks of `N ≥ 8` bytes (`N` is both `IO_HID_EP_LENGTH` and the
size of the scratch buffer), a destination of capacity `C ≤ 65535` and an APDU `a` with
`0 < len(a) ≤ C` stored at a non-null address: the chunks emitted by `io_usb_hid_send` and
enough calls of `io_usb_hid_sent` to emit them all, fed in order and each with length `N` to
`io_usb_hid_receive` on a freshly initialised session, are answered with
`IO_USB_APDU_MORE_DATA` for every chunk but the last and `IO_USB_APDU_RECEIVED` for the last;
the first `len(a)` bytes of the destination then equal `a`, and `total_length = len(a)`. -/
theorem round_trip (cfg : Platform) (N : Nat) (hB : cfg.sizeof_ep_buffer = N)
    (hH : cfg.IO_HID_EP_LENGTH = N) (h8 : 8 ≤ N)
    (snd : State) (src : Nat) (hsrc : src ≠ 0) (a : List Byte) (ha0 : 0 < a.length)
    (C : Nat) (hC : C ≤ 65535) (haC : a.length ≤ C)
    (hmem : mem_read snd.mem src a.length = a)
    (n : Nat) (hn : chunk_count N a.length ≤ n + 1)
    (rcv : State) (dst : Nat) (rng : Nat → Byte) :
    (recv_trace cfg (io_usb_hid_init rcv)
        (feed_calls rng N (some { buf := dst, len := C })
          (emitted snd (send_all cfg snd a.length src n)))).map Rx.status
      = List.replicate ((emitted snd (send_all cfg snd a.length src n)).length - 1)
          IO_USB_APDU_MORE_DATA ++ [IO_USB_APDU_RECEIVED] ∧
    mem_read (recv_final cfg (io_usb_hid_init rcv)
        (feed_calls rng N (some { buf := dst, len := C })
          (emitted snd (send_all cfg snd a.length src n)))).mem dst a.length = a ∧
    (recv_final cfg (io_usb_hid_init rcv)
        (feed_calls rng N (some { buf := dst, len := C })
          (emitted snd (send_all cfg snd a.length src n)))).G_io_usb_hid_total_length
      = a.length := by
  have hK : 1 ≤ chunk_count N a.length := by unfold chunk_count; omega
  obtain ⟨m, hm⟩ : ∃ m, chunk_count N a.length = m + 1 := ⟨chunk_count N a.length - 1, by omega⟩
  rw [emitted_send_all cfg N hB hH h8 snd a.length src a hsrc ha0 (by omega)
    (mem_of_mem_read snd.mem src a hmem) n, Nat.min_eq_right hn, hm, List.range_eq_range']
  obtain ⟨h1, h2, h3⟩ := recv_chunks cfg N hB h8 rng snd.G_io_usb_hid_channel a.length dst C a
    ha0 haC hC m 0 (io_usb_hid_init rcv) (by omega) ⟨rfl, fun h => absurd rfl h⟩
  refine ⟨?_, ?_, h2⟩
  · rw [h1]
    simp
  · apply list_ext_nth
    · simp
    · intro i hi
      rw [mem_read_length] at hi
      rw [nth_mem_read, if_pos hi, h3 i hi]

/-- Witness of C1: the three-byte APDU `apdu3`, sent in 8-byte chunks and received into the
sixteen-byte destination at address `2000`. -/
theorem round_trip_witness :
    (recv_trace cfg8 (io_usb_hid_init (zero_state cfg8))
        (feed_calls (fun _ => 0) 8 (some { buf := 2000, len := 16 })
          (emitted sender8 (send_all cfg8 sender8 apdu3.length 1000 1)))).map Rx.status
      = List.replicate ((emitted sender8 (send_all cfg8 sender8 apdu3.length 1000 1)).length - 1)
          IO_USB_APDU_MORE_DATA ++ [IO_USB_APDU_RECEIVED] ∧
    mem_read (recv_final cfg8 (io_usb_hid_init (zero_state cfg8))
        (feed_calls (fun _ => 0) 8 (some { buf := 2000, len := 16 })
          (emitted sender8 (send_all cfg8 sender8 apdu3.length 1000 1)))).mem 2000 apdu3.length
      = apdu3 ∧
    (recv_final cfg8 (io_usb_hid_init (zero_state cfg8))
        (feed_calls (fun _ => 0) 8 (some { buf := 2000, len := 16 })
          (emitted sender8 (send_all cfg8 sender8 apdu3.length 1000 1)))).G_io_usb_hid_total_length
      = apdu3.length :=
  round_trip cfg8 8 rfl rfl (by decide) sender8 1000 (by decide) apdu3 (by decide) 16
    (by decide) (by decide) (by decide) 1 (by decide) (zero_state cfg8) 2000 (fun _ => 0)

/-! ## Unknown tags -/

/-- C19 (outcome for an unknown tag).  For a chunk whose tag is none of `0x00`, `0x01`, `0x02`
and `0x05`, `io_usb_hid_receive` returns `IO_USB_APDU_MORE_DATA` when `remaining_length > 0`
and `IO_USB_APDU_RECEIVED` when `remaining_length = 0`; it never returns
`IO_USB_APDU_RESET`. -/
theorem unknown_tag_outcome (cfg : Platform) (rng : Nat → Byte) (s : State)
    (buffer : Option (List Byte)) (l : Nat) (ab : Option apdu_buffer_t)
    (h5 : (nth (scratch cfg s buffer l) 2).val ≠ 0x05)
    (h0 : (nth (scratch cfg s buffer l) 2).val ≠ 0x00)
    (h1 : (nth (scratch cfg s buffer l) 2).val ≠ 0x01)
    (h2 : (nth (scratch cfg s buffer l) 2).val ≠ 0x02) :
    (0 < s.G_io_usb_hid_remaining_length →
      (io_usb_hid_receive cfg rng s buffer l ab).status = IO_USB_APDU_MORE_DATA) ∧
    (s.G_io_usb_hid_remaining_length = 0 →
      (io_usb_hid_receive cfg rng s buffer l ab).status = IO_USB_APDU_RECEIVED) ∧
    (io_usb_hid_receive cfg rng s buffer l ab).status ≠ IO_USB_APDU_RESET := by
  obtain ⟨_, _, hr, _, _, _, _, _⟩ := load_fields cfg s buffer l
  rw [receive_unknown cfg rng s buffer l ab h5 h0 h1 h2]
  refine ⟨?_, ?_, after_switch_status _ _⟩
  · intro h
    rw [after_switch_more _ _ (by rw [hr]; omega)]
  · intro h
    rw [after_switch_done _ _ (by rw [hr]; exact h)]

/-- Witness of C19: the chunk `abort_chunk` (tag `0x03`) on an idle session. -/
theorem unknown_tag_outcome_witness :
    (0 < (zero_state cfg8).G_io_usb_hid_remaining_length →
      (io_usb_hid_receive cfg8 (fun _ => 0) (zero_state cfg8) (some abort_chunk) 8 dest16).status
        = IO_USB_APDU_MORE_DATA) ∧
    ((zero_state cfg8).G_io_usb_hid_remaining_length = 0 →
      (io_usb_hid_receive cfg8 (fun _ => 0) (zero_state cfg8) (some abort_chunk) 8 dest16).status
        = IO_USB_APDU_RECEIVED) ∧
    (io_usb_hid_receive cfg8 (fun _ => 0) (zero_state cfg8) (some abort_chunk) 8 dest16).status
      ≠ IO_USB_APDU_RESET :=
  unknown_tag_outcome cfg8 (fun _ => 0) (zero_state cfg8) (some abort_chunk) 8 dest16
    (by decide) (by decide) (by decide) (by decide)

/-- C14 as stated fails: in the state `sent_one` (`remaining_length = 0`,
`sequence_number = 1`, cursor at `1001`) the chunk `abort_chunk`, whose tag is `0x03`, makes
`io_usb_hid_receive` clear `sequence_number` and the cursor. -/
theorem unknown_tag_frame_counterexample :
    (nth (scratch cfg8 sent_one (some abort_chunk) 8) 2).val = 0x03 ∧
    sent_one.G_io_usb_hid_remaining_length = 0 ∧
    sent_one.G_io_usb_hid_sequence_number = 1 ∧
    sent_one.G_io_usb_hid_current_buffer = 1001 ∧
    (io_usb_hid_receive cfg8 (fun _ => 0) sent_one (some abort_chunk) 8
      dest16).st.G_io_usb_hid_sequence_number = 0 ∧
    (io_usb_hid_receive cfg8 (fun _ => 0) sent_one (some abort_chunk) 8
      dest16).st.G_io_usb_hid_current_buffer = 0 := by
  decide

/-- C14 (amended).  For a chunk whose tag is none of `0x00`, `0x01`, `0x02` and `0x05`,
`io_usb_hid_receive` sends no reply and performs no copy, and the state it leaves is the
state before the call with the scratch buffer holding the chunk and, when
`remaining_length = 0`, with `sequence_number = 0` and a `NULL` cursor: the memory,
`total_length`, `channel`, `remaining_length`, `apdu_state` and the `sndfct` log are as
before the call, and so are `sequence_number` and the cursor when `remaining_length > 0`. -/
theorem unknown_tag_frame (cfg : Platform) (rng : Nat → Byte) (s : State)
    (buffer : Option (List Byte)) (l : Nat) (ab : Option apdu_buffer_t)
    (h5 : (nth (scratch cfg s buffer l) 2).val ≠ 0x05)
    (h0 : (nth (scratch cfg s buffer l) 2).val ≠ 0x00)
    (h1 : (nth (scratch cfg s buffer l) 2).val ≠ 0x01)
    (h2 : (nth (scratch cfg s buffer l) 2).val ≠ 0x02) :
    (io_usb_hid_receive cfg rng s buffer l ab).copy = none ∧
    (io_usb_hid_receive cfg rng s buffer l ab).st =
      { s with
        G_io_usb_ep_buffer := scratch cfg s buffer l
        G_io_usb_hid_sequence_number :=
          if s.G_io_usb_hid_remaining_length = 0 then 0 else s.G_io_usb_hid_sequence_number
        G_io_usb_hid_current_buffer :=
          if s.G_io_usb_hid_remaining_length = 0 then 0 else s.G_io_usb_hid_current_buffer } := by
  rw [receive_unknown cfg rng s buffer l ab h5 h0 h1 h2, load_frame]
  by_cases hz : s.G_io_usb_hid_remaining_length = 0
  · rw [after_switch_done _ _ (by simpa using hz)]
    simp [io_usb_hid_init, hz]
  · rw [after_switch_more _ _ (by simpa using hz)]
    simp [hz]

/-- Witness of C14 (amended), on the chunk `abort_chunk` received in the state `sent_one`. -/
theorem unknown_tag_frame_witness :
    (io_usb_hid_receive cfg8 (fun _ => 0) sent_one (some abort_chunk) 8 dest16).copy = none ∧
    (io_usb_hid_receive cfg8 (fun _ => 0) sent_one (some abort_chunk) 8 dest16).st =
      { sent_one with
        G_io_usb_ep_buffer := scratch cfg8 sent_one (some abort_chunk) 8
        G_io_usb_hid_sequence_number :=
          if sent_one.G_io_usb_hid_remaining_length = 0 then 0
          else sent_one.G_io_usb_hid_sequence_number
        G_io_usb_hid_current_buffer :=
          if sent_one.G_io_usb_hid_remaining_length = 0 then 0
          else sent_one.G_io_usb_hid_current_buffer } :=
  unknown_tag_frame cfg8 (fun _ => 0) sent_one (some abort_chunk) 8 dest16
    (by decide) (by decide) (by decide) (by decide)

/-! ## Empty send and reset -/

/-- C15 (empty send).  A call of `io_usb_hid_send` with length `0` returns the state
unchanged: no chunk is handed to `sndfct`, and `sequence_number`, `remaining_length`,
`total_length`, `channel` and the cursor are as before. -/
theorem empty_send_noop (cfg : Platform) (s : State) (apdu_buffer : Nat) :
    io_usb_hid_send cfg s 0 apdu_buffer = s ∧
    emitted s (io_usb_hid_send cfg s 0 apdu_buffer) = [] := by
  have h : io_usb_hid_send cfg s 0 apdu_buffer = s := by
    unfold io_usb_hid_send
    rw [if_neg (by simp)]
  rw [h]
  exact ⟨rfl, by simp [emitted]⟩

/-- C16 (idempotent reset).  Calling `io_usb_hid_init` twice gives the same state as calling
it once, and that state has `sequence_number = 0`, `remaining_length = 0` and a `NULL`
cursor. -/
theorem init_idempotent (s : State) :
    io_usb_hid_init (io_usb_hid_init s) = io_usb_hid_init s ∧
    (io_usb_hid_init s).G_io_usb_hid_sequence_number = 0 ∧
    (io_usb_hid_init s).G_io_usb_hid_remaining_length = 0 ∧
    (io_usb_hid_init s).G_io_usb_hid_current_buffer = 0 :=
  ⟨rfl, rfl, rfl, rfl⟩

/-! ## The single-chunk send primitive -/

theorem send_ep_dropped (k : Seproxyhal) (t : Link) (ep : Nat) (buffer : List Byte)
    (length timeout : Nat) (h : 255 < length) :
    io_usb_send_ep k t ep buffer length timeout = t := by
  unfold io_usb_send_ep
  rw [if_pos h]

theorem send_ep_sent (k : Seproxyhal) (t : Link) (ep : Nat) (buffer : List Byte)
    (length timeout : Nat) (h : length ≤ 255) :
    io_usb_send_ep k t ep buffer length timeout =
      { spi_log := t.spi_log ++
          [[k.SEPROXYHAL_TAG_USB_EP_PREPARE, byte ((3 + length) / 256), byte (3 + length),
            byte (ep ||| 0x80), k.SEPROXYHAL_TAG_USB_EP_PREPARE_DIR_IN, byte length]] ++
          [slice buffer 0 length]
        usb_ep_timeouts :=
          fun i => if i = ep % 128 then IO_RAPDU_TRANSMIT_TIMEOUT_MS else t.usb_ep_timeouts i } := by
  unfold io_usb_send_ep
  rw [if_neg (by omega)]
  rfl

/-- C17 (oversized single-chunk send).  Called with `length > 255`, `io_usb_send_ep` hands
nothing to `io_seproxyhal_spi_send` and changes no timeout.  Called with `length ≤ 255`, it
hands over the six-byte header (tag, `3 + length` big endian on two bytes, `ep | 0x80`, the
direction IN, `length`) and then exactly the first `length` bytes of the buffer, and sets the
timeout of slot `ep & 0x7F` to 2000 ms, every other slot keeping its timeout. -/
theorem send_ep_behaviour (k : Seproxyhal) (t : Link) (ep : Nat) (buffer : List Byte)
    (length timeout : Nat) :
    (255 < length → io_usb_send_ep k t ep buffer length timeout = t) ∧
    (length ≤ 255 →
      (io_usb_send_ep k t ep buffer length timeout).spi_log
        = t.spi_log ++
          [[k.SEPROXYHAL_TAG_USB_EP_PREPARE, byte ((3 + length) / 256), byte (3 + length),
            byte (ep ||| 0x80), k.SEPROXYHAL_TAG_USB_EP_PREPARE_DIR_IN, byte length],
           slice buffer 0 length] ∧
      U2BE [k.SEPROXYHAL_TAG_USB_EP_PREPARE, byte ((3 + length) / 256), byte (3 + length),
            byte (ep ||| 0x80), k.SEPROXYHAL_TAG_USB_EP_PREPARE_DIR_IN, byte length] 1
        = 3 + length ∧
      (byte length).val = length ∧
      (slice buffer 0 length).length = length ∧
      (∀ i, i < length → nth (slice buffer 0 length) i = nth buffer i) ∧
      (io_usb_send_ep k t ep buffer length timeout).usb_ep_timeouts (ep % 128) = 2000 ∧
      (∀ i, i ≠ ep % 128 →
        (io_usb_send_ep k t ep buffer length timeout).usb_ep_timeouts i = t.usb_ep_timeouts i)) := by
  refine ⟨send_ep_dropped k t ep buffer length timeout, ?_⟩
  intro h
  rw [send_ep_sent k t ep buffer length timeout h]
  refine ⟨by simp, ?_, ?_, by simp, ?_, ?_, ?_⟩
  · simp only [U2BE, nth, List.getD_cons_succ, List.getD_cons_zero, byte_val]
    omega
  · rw [byte_val]; omega
  · intro i hi
    rw [nth_slice, if_pos hi, Nat.zero_add]
  · simp [IO_RAPDU_TRANSMIT_TIMEOUT_MS]
  · intro i hi
    simp [hi]

/-! ## Control chunks -/

theorem scratch_length (cfg : Platform) (s : State) (buffer : Option (List Byte)) (l : Nat)
    (hsz : buffer = none → s.G_io_usb_ep_buffer.length = cfg.sizeof_ep_buffer) :
    (scratch cfg s buffer l).length = cfg.sizeof_ep_buffer := by
  cases buffer with
  | none => exact hsz rfl
  | some b => simp [scratch, load]

theorem receive_version (cfg : Platform) (rng : Nat → Byte) (s : State)
    (buffer : Option (List Byte)) (l : Nat) (ab : Option apdu_buffer_t)
    (h : (nth (scratch cfg s buffer l) 2).val = 0x00) :
    io_usb_hid_receive cfg rng s buffer l ab =
      apdu_reset (sndfct
        { load cfg s buffer l with
          G_io_usb_ep_buffer := poke (scratch cfg s buffer l) 3 (List.replicate 4 0) }
        cfg.IO_HID_EP_LENGTH) := by
  unfold scratch at h
  simp only [io_usb_hid_receive, h]
  rfl

theorem receive_allocate (cfg : Platform) (rng : Nat → Byte) (s : State)
    (buffer : Option (List Byte)) (l : Nat) (ab : Option apdu_buffer_t)
    (h : (nth (scratch cfg s buffer l) 2).val = 0x01) :
    io_usb_hid_receive cfg rng s buffer l ab =
      apdu_reset (sndfct
        { load cfg s buffer l with
          G_io_usb_ep_buffer := poke (scratch cfg s buffer l) 3 ((List.range 4).map rng) }
        cfg.IO_HID_EP_LENGTH) := by
  unfold scratch at h
  simp only [io_usb_hid_receive, h]
  rfl

theorem receive_ping (cfg : Platform) (rng : Nat → Byte) (s : State)
    (buffer : Option (List Byte)) (l : Nat) (ab : Option apdu_buffer_t)
    (h : (nth (scratch cfg s buffer l) 2).val = 0x02) :
    io_usb_hid_receive cfg rng s buffer l ab =
      apdu_reset (sndfct (load cfg s buffer l) cfg.IO_HID_EP_LENGTH) := by
  unfold scratch at h
  simp only [io_usb_hid_receive, h]
  rfl

/-- The reply built from the scratch buffer `e` by overwriting bytes `[3..7)` with `x`. -/
theorem reply_bytes (e x : List Byte) (N : Nat) (he : e.length = N) (h7 : 7 ≤ N)
    (hx : x.length = 4) :
    (slice (poke e 3 x) 0 N).length = N ∧
    (∀ i, (i < 3 ∨ 7 ≤ i) → nth (slice (poke e 3 x) 0 N) i = nth e i) ∧
    (∀ j, j < 4 → nth (slice (poke e 3 x) 0 N) (3 + j) = nth x j) := by
  refine ⟨by simp, ?_, ?_⟩
  · intro i hi
    rw [nth_slice, Nat.zero_add]
    by_cases hN : i < N
    · rw [if_pos hN, nth_poke, he, if_pos hN, if_neg (by omega)]
    · rw [if_neg hN, nth_of_length_le e i (by omega)]
  · intro j hj
    rw [nth_slice, Nat.zero_add, if_pos (by omega), nth_poke, he, if_pos (by omega),
      if_pos (by omega), Nat.add_sub_cancel_left]

/-- C11 (control replies).  With `N ≥ 7` both `IO_HID_EP_LENGTH` and the size of the scratch
buffer, a chunk whose tag is `0x00`, `0x01` or `0x02` makes `io_usb_hid_receive` hand exactly
one buffer to `sndfct`; it has `N` bytes, equal outside `[3..7)` to the received chunk as
loaded (zero-padded to `N`), and bytes `[3..7)` are zero for tag `0x00`, the four bytes of the
random source for tag `0x01` and the received bytes for tag `0x02`.  No copy is performed,
the memory is unchanged, the state has `sequence_number = 0`, `remaining_length = 0` and a
`NULL` cursor, and the result is `IO_USB_APDU_RESET`. -/
theorem control_reply (cfg : Platform) (N : Nat) (hB : cfg.sizeof_ep_buffer = N)
    (hH : cfg.IO_HID_EP_LENGTH = N) (h7 : 7 ≤ N) (rng : Nat → Byte) (s : State)
    (buffer : Option (List Byte)) (l : Nat) (ab : Option apdu_buffer_t)
    (hsz : buffer = none → s.G_io_usb_ep_buffer.length = N)
    (htag : (nth (scratch cfg s buffer l) 2).val = 0x00 ∨
      (nth (scratch cfg s buffer l) 2).val = 0x01 ∨
      (nth (scratch cfg s buffer l) 2).val = 0x02) :
    (∃ reply : List Byte,
      (io_usb_hid_receive cfg rng s buffer l ab).st.sndfct_log = s.sndfct_log ++ [reply] ∧
      reply.length = N ∧
      (∀ i, (i < 3 ∨ 7 ≤ i) → nth reply i = nth (scratch cfg s buffer l) i) ∧
      (∀ j, j < 4 → nth reply (3 + j) =
        if (nth (scratch cfg s buffer l) 2).val = 0x00 then 0
        else if (nth (scratch cfg s buffer l) 2).val = 0x01 then rng j
        else nth (scratch cfg s buffer l) (3 + j))) ∧
    (io_usb_hid_receive cfg rng s buffer l ab).copy = none ∧
    (io_usb_hid_receive cfg rng s buffer l ab).st.mem = s.mem ∧
    (io_usb_hid_receive cfg rng s buffer l ab).st.G_io_usb_hid_sequence_number = 0 ∧
    (io_usb_hid_receive cfg rng s buffer l ab).st.G_io_usb_hid_remaining_length = 0 ∧
    (io_usb_hid_receive cfg rng s buffer l ab).st.G_io_usb_hid_current_buffer = 0 ∧
    (io_usb_hid_receive cfg rng s buffer l ab).status = IO_USB_APDU_RESET := by
  have he : (scratch cfg s buffer l).length = N := by
    rw [scratch_length cfg s buffer l (by rw [hB]; exact hsz), hB]
  obtain ⟨_, _, _, _, _, hmem, _, hlog⟩ := load_fields cfg s buffer l
  rcases htag with h | h | h
  · obtain ⟨r1, r2, r3⟩ := reply_bytes (scratch cfg s buffer l) (List.replicate 4 0) N he h7
      (by simp)
    rw [receive_version cfg rng s buffer l ab h]
    refine ⟨⟨slice (poke (scratch cfg s buffer l) 3 (List.replicate 4 0)) 0 N, ?_, r1, r2, ?_⟩,
      rfl, ?_, rfl, rfl, rfl, rfl⟩
    · simp [apdu_reset, io_usb_hid_init, sndfct, hlog, hH]
    · intro j hj
      rw [r3 j hj, if_pos h, nth_replicate_zero]
    · simp [apdu_reset, io_usb_hid_init, sndfct, hmem]
  · obtain ⟨r1, r2, r3⟩ := reply_bytes (scratch cfg s buffer l) ((List.range 4).map rng) N he h7
      (by simp)
    rw [receive_allocate cfg rng s buffer l ab h]
    refine ⟨⟨slice (poke (scratch cfg s buffer l) 3 ((List.range 4).map rng)) 0 N, ?_, r1, r2, ?_⟩,
      rfl, ?_, rfl, rfl, rfl, rfl⟩
    · simp [apdu_reset, io_usb_hid_init, sndfct, hlog, hH]
    · intro j hj
      rw [r3 j hj, if_neg (by omega), if_pos h, nth_map_range, if_pos hj]
    · simp [apdu_reset, io_usb_hid_init, sndfct, hmem]
  · rw [receive_ping cfg rng s buffer l ab h]
    refine ⟨⟨slice (scratch cfg s buffer l) 0 N, ?_, by simp, ?_, ?_⟩,
      rfl, ?_, rfl, rfl, rfl, rfl⟩
    · simp only [apdu_reset, io_usb_hid_init, sndfct, hlog, hH]
      rfl
    · intro i _
      rw [nth_slice, Nat.zero_add]
      by_cases hN : i < N
      · rw [if_pos hN]
      · rw [if_neg hN, nth_of_length_le _ i (by omega)]
    · intro j hj
      rw [if_neg (by omega), if_neg (by omega), nth_slice, Nat.zero_add, if_pos (by omega)]
    · simp [apdu_reset, io_usb_hid_init, sndfct, hmem]

/-- Witness of C11: the ping chunk `ping_chunk` received on an idle session. -/
theorem control_reply_witness :
    (∃ reply : List Byte,
      (io_usb_hid_receive cfg8 (fun _ => 0) (zero_state cfg8) (some ping_chunk) 8
        dest16).st.sndfct_log = (zero_state cfg8).sndfct_log ++ [reply] ∧
      reply.length = 8 ∧
      (∀ i, (i < 3 ∨ 7 ≤ i) →
        nth reply i = nth (scratch cfg8 (zero_state cfg8) (some ping_chunk) 8) i) ∧
      (∀ j, j < 4 → nth reply (3 + j) =
        if (nth (scratch cfg8 (zero_state cfg8) (some ping_chunk) 8) 2).val = 0x00 then 0
        else if (nth (scratch cfg8 (zero_state cfg8) (some ping_chunk) 8) 2).val = 0x01
          then (fun _ => 0) j
        else nth (scratch cfg8 (zero_state cfg8) (some ping_chunk) 8) (3 + j))) ∧
    (io_usb_hid_receive cfg8 (fun _ => 0) (zero_state cfg8) (some ping_chunk) 8 dest16).copy
      = none ∧
    (io_usb_hid_receive cfg8 (fun _ => 0) (zero_state cfg8) (some ping_chunk) 8 dest16).st.mem
      = (zero_state cfg8).mem ∧
    (io_usb_hid_receive cfg8 (fun _ => 0) (zero_state cfg8) (some ping_chunk) 8
      dest16).st.G_io_usb_hid_sequence_number = 0 ∧
    (io_usb_hid_receive cfg8 (fun _ => 0) (zero_state cfg8) (some ping_chunk) 8
      dest16).st.G_io_usb_hid_remaining_length = 0 ∧
    (io_usb_hid_receive cfg8 (fun _ => 0) (zero_state cfg8) (some ping_chunk) 8
      dest16).st.G_io_usb_hid_current_buffer = 0 ∧
    (io_usb_hid_receive cfg8 (fun _ => 0) (zero_state cfg8) (some ping_chunk) 8 dest16).status
      = IO_USB_APDU_RESET :=
  control_reply cfg8 8 rfl rfl (by decide) (fun _ => 0) (zero_state cfg8) (some ping_chunk) 8
    dest16 (fun h => absurd h (by decide)) (Or.inr (Or.inr (by decide)))

/-- C12 (a ping abandons a reception in progress).  In a state that expects chunk number
`k = sequence_number ≥ 1` (whatever `remaining_length` is, in particular when it is
positive), a ping chunk (tag `0x02`) is answered with `IO_USB_APDU_RESET`, leaves
`remaining_length = 0` and `sequence_number = 0`, performs no copy and leaves the memory,
hence the bytes already copied, unchanged.  The continuation chunk with sequence number `k`,
fed next, is answered with `IO_USB_APDU_RESET` too and copies nothing. -/
theorem ping_abandons_reception (cfg : Platform) (rng rng2 : Nat → Byte) (s : State)
    (buffer : Option (List Byte)) (l : Nat) (ab : Option apdu_buffer_t)
    (buffer2 : Option (List Byte)) (l2 : Nat) (ab2 : Option apdu_buffer_t)
    (hk : 1 ≤ s.G_io_usb_hid_sequence_number)
    (hping : (nth (scratch cfg s buffer l) 2).val = 0x02)
    (htag2 : (nth (scratch cfg (io_usb_hid_receive cfg rng s buffer l ab).st buffer2 l2) 2).val
      = 0x05)
    (hseq2 : U2BE (scratch cfg (io_usb_hid_receive cfg rng s buffer l ab).st buffer2 l2) 3
      = s.G_io_usb_hid_sequence_number) :
    (io_usb_hid_receive cfg rng s buffer l ab).status = IO_USB_APDU_RESET ∧
    (io_usb_hid_receive cfg rng s buffer l ab).st.G_io_usb_hid_remaining_length = 0 ∧
    (io_usb_hid_receive cfg rng s buffer l ab).st.G_io_usb_hid_sequence_number = 0 ∧
    (io_usb_hid_receive cfg rng s buffer l ab).copy = none ∧
    (io_usb_hid_receive cfg rng s buffer l ab).st.mem = s.mem ∧
    (io_usb_hid_receive cfg rng2 (io_usb_hid_receive cfg rng s buffer l ab).st buffer2 l2
      ab2).status = IO_USB_APDU_RESET ∧
    (io_usb_hid_receive cfg rng2 (io_usb_hid_receive cfg rng s buffer l ab).st buffer2 l2
      ab2).copy = none ∧
    (io_usb_hid_receive cfg rng2 (io_usb_hid_receive cfg rng s buffer l ab).st buffer2 l2
      ab2).st.mem = s.mem := by
  have hmem1 : (io_usb_hid_receive cfg rng s buffer l ab).st.mem = s.mem := by
    rw [receive_ping cfg rng s buffer l ab hping]
    simp [apdu_reset, io_usb_hid_init, sndfct, (load_fields cfg s buffer l).2.2.2.2.2.1]
  have hseq1 : (io_usb_hid_receive cfg rng s buffer l ab).st.G_io_usb_hid_sequence_number = 0 := by
    rw [receive_ping cfg rng s buffer l ab hping]; rfl
  have hne : U2BE (scratch cfg (io_usb_hid_receive cfg rng s buffer l ab).st buffer2 l2) 3
      ≠ (io_usb_hid_receive cfg rng s buffer l ab).st.G_io_usb_hid_sequence_number := by
    rw [hseq2, hseq1]; omega
  have hmem2 : (load cfg (io_usb_hid_receive cfg rng s buffer l ab).st buffer2 l2).mem
      = (io_usb_hid_receive cfg rng s buffer l ab).st.mem :=
    (load_fields cfg _ buffer2 l2).2.2.2.2.2.1
  have hq2 : (load cfg (io_usb_hid_receive cfg rng s buffer l ab).st buffer2
      l2).G_io_usb_hid_sequence_number
      = (io_usb_hid_receive cfg rng s buffer l ab).st.G_io_usb_hid_sequence_number :=
    (load_fields cfg _ buffer2 l2).2.2.2.1
  have h2 : io_usb_hid_receive cfg rng2 (io_usb_hid_receive cfg rng s buffer l ab).st buffer2 l2
      ab2 = apdu_reset (load cfg (io_usb_hid_receive cfg rng s buffer l ab).st buffer2 l2) := by
    rw [receive_eq_case_data cfg rng2 _ buffer2 l2 ab2 htag2]
    exact case_data_mismatch cfg _ l2 ab2 (by rw [hq2]; exact hne)
  refine ⟨?_, ?_, hseq1, ?_, hmem1, ?_, ?_, ?_⟩
  · rw [receive_ping cfg rng s buffer l ab hping]; rfl
  · rw [receive_ping cfg rng s buffer l ab hping]; rfl
  · rw [receive_ping cfg rng s buffer l ab hping]; rfl
  · rw [h2]; rfl
  · rw [h2]; rfl
  · rw [h2]
    simp only [apdu_reset, io_usb_hid_init]
    rw [hmem2, hmem1]

/-- Witness of C12: a ping after the first chunk of a nine-byte APDU, then the continuation
with sequence number `1`. -/
theorem ping_abandons_reception_witness :
    (io_usb_hid_receive cfg8 (fun _ => 0) after_first (some ping_chunk) 8 dest16).status
      = IO_USB_APDU_RESET ∧
    (io_usb_hid_receive cfg8 (fun _ => 0) after_first (some ping_chunk) 8
      dest16).st.G_io_usb_hid_remaining_length = 0 ∧
    (io_usb_hid_receive cfg8 (fun _ => 0) after_first (some ping_chunk) 8
      dest16).st.G_io_usb_hid_sequence_number = 0 ∧
    (io_usb_hid_receive cfg8 (fun _ => 0) after_first (some ping_chunk) 8 dest16).copy = none ∧
    (io_usb_hid_receive cfg8 (fun _ => 0) after_first (some ping_chunk) 8 dest16).st.mem
      = after_first.mem ∧
    (io_usb_hid_receive cfg8 (fun _ => 0)
      (io_usb_hid_receive cfg8 (fun _ => 0) after_first (some ping_chunk) 8 dest16).st
      (some second_of_nine) 8 dest16).status = IO_USB_APDU_RESET ∧
    (io_usb_hid_receive cfg8 (fun _ => 0)
      (io_usb_hid_receive cfg8 (fun _ => 0) after_first (some ping_chunk) 8 dest16).st
      (some second_of_nine) 8 dest16).copy = none ∧
    (io_usb_hid_receive cfg8 (fun _ => 0)
      (io_usb_hid_receive cfg8 (fun _ => 0) after_first (some ping_chunk) 8 dest16).st
      (some second_of_nine) 8 dest16).st.mem = after_first.mem :=
  ping_abandons_reception cfg8 (fun _ => 0) (fun _ => 0) after_first (some ping_chunk) 8 dest16
    (some second_of_nine) 8 dest16 (by decide) (by decide) (by decide) (by decide)

/-! ## The length of a copy -/

theorem sub_u16_header (l : Nat) :
    sub_u16 (sub_u16 l 5) 2 = (if l < 7 then l + 65536 - 7 else l - 7) := by
  unfold sub_u16
  split_ifs <;> omega

theorem factorize_copy (s : State) (h l : Nat) :
    (factorize s h l).copy
      = some { dst := s.G_io_usb_hid_current_buffer, src_off := h, n := l } := by
  by_cases hz : s.G_io_usb_hid_remaining_length - l = 0
  · rw [factorize_done s h l hz]
  · rw [factorize_more s h l hz]

/-- C18 as stated fails: the six-byte chunk `short_chunk` is an accepted first chunk (tag
`0x05`, sequence field `0`, declared length `256 ≤ 300`) shorter than its seven-byte header;
`io_usb_hid_receive` copies one byte out of it, where `min(p, remaining_length, N - 7)` with
`p = 0` is `0`. -/
theorem copied_length_counterexample :
    (nth (scratch cfg8 (zero_state cfg8) (some short_chunk) 6) 2).val = 0x05 ∧
    U2BE (scratch cfg8 (zero_state cfg8) (some short_chunk) 6) 3
      = (zero_state cfg8).G_io_usb_hid_sequence_number ∧
    U2BE (scratch cfg8 (zero_state cfg8) (some short_chunk) 6) 5 = 256 ∧
    apdu_buf_len cfg8 dest300 = 300 ∧
    (io_usb_hid_receive cfg8 (fun _ => 0) (zero_state cfg8) (some short_chunk) 6 dest300).status
      = IO_USB_APDU_MORE_DATA ∧
    (io_usb_hid_receive cfg8 (fun _ => 0) (zero_state cfg8) (some short_chunk) 6 dest300).copy
      = some { dst := 2000, src_off := 7, n := 1 } ∧
    min (min (6 - 7) 256) (8 - 7) = 0 := by
  decide

/-- C18 (amended).  With a scratch buffer of `N ≥ 7` bytes, an accepted data chunk of received
length `l` makes `io_usb_hid_receive` copy `min(p, remaining_length, N - h)` bytes to the
cursor, from offset `h` of the scratch buffer, where `h = 7` for a first chunk
(`remaining_length` being the declared total length, the cursor the start of the
destination) and `h = 5` for a continuation, and `p` is `l - h` computed on 16 bits:
`l - h` when `l ≥ h` and `l + 65536 - h` when `l < h`. -/
theorem copied_length (cfg : Platform) (N : Nat) (hB : cfg.sizeof_ep_buffer = N) (h7 : 7 ≤ N)
    (rng : Nat → Byte) (s : State) (buffer : Option (List Byte)) (l : Nat)
    (ab : Option apdu_buffer_t)
    (htag : (nth (scratch cfg s buffer l) 2).val = 0x05)
    (hseq : U2BE (scratch cfg s buffer l) 3 = s.G_io_usb_hid_sequence_number)
    (hfit : s.G_io_usb_hid_sequence_number = 0 →
      U2BE (scratch cfg s buffer l) 5 ≤ apdu_buf_len cfg ab) :
    (io_usb_hid_receive cfg rng s buffer l ab).copy =
      some
        (if s.G_io_usb_hid_sequence_number = 0 then
          { dst := apdu_buf cfg ab
            src_off := 7
            n := min (min (if l < 7 then l + 65536 - 7 else l - 7)
                   (U2BE (scratch cfg s buffer l) 5)) (N - 7) }
        else
          { dst := s.G_io_usb_hid_current_buffer
            src_off := 5
            n := min (min (if l < 5 then l + 65536 - 5 else l - 5)
                   s.G_io_usb_hid_remaining_length) (N - 5) }) := by
  obtain ⟨_, _, hr, hq, hb, _, _, _⟩ := load_fields cfg s buffer l
  have hep : (load cfg s buffer l).G_io_usb_ep_buffer = scratch cfg s buffer l := rfl
  rw [receive_eq_case_data cfg rng s buffer l ab htag]
  by_cases h0 : s.G_io_usb_hid_sequence_number = 0
  · rw [case_data_first cfg _ l ab (by rw [hep, hq]; exact hseq) (by rw [hq]; exact h0)
      (by rw [hep]; exact hfit h0), factorize_copy, if_pos h0]
    simp only [first_state, first_len, clamp_eq_min, sub_u16_header, hep, hB,
      sub_u32_of_le N 7 h7]
  · rw [case_data_next cfg _ l ab (by rw [hep, hq]; exact hseq) (by rw [hq]; exact h0),
      factorize_copy, if_neg h0]
    simp only [next_len, clamp_eq_min, hr, hb, hB, sub_u32_of_le N 5 (by omega), sub_u16]

/-- Witness of C18 (amended), on the six-byte first chunk `short_chunk`. -/
theorem copied_length_witness :
    (io_usb_hid_receive cfg8 (fun _ => 0) (zero_state cfg8) (some short_chunk) 6 dest300).copy =
      some
        (if (zero_state cfg8).G_io_usb_hid_sequence_number = 0 then
          { dst := apdu_buf cfg8 dest300
            src_off := 7
            n := min (min (if 6 < 7 then 6 + 65536 - 7 else 6 - 7)
                   (U2BE (scratch cfg8 (zero_state cfg8) (some short_chunk) 6) 5)) (8 - 7) }
        else
          { dst := (zero_state cfg8).G_io_usb_hid_current_buffer
            src_off := 5
            n := min (min (if 6 < 5 then 6 + 65536 - 5 else 6 - 5)
                   (zero_state cfg8).G_io_usb_hid_remaining_length) (8 - 5) }) :=
  copied_length cfg8 8 rfl (by decide) (fun _ => 0) (zero_state cfg8) (some short_chunk) 6
    dest300 (by decide) (by decide) (fun _ => by decide)

/-! ## One session state for both directions -/

theorem sent_idle_iterate (cfg : Platform) (n : Nat) :
    ∀ u : State, u.G_io_usb_hid_remaining_length = 0 →
      ((io_usb_hid_sent cfg)^[n] u).sndfct_log = u.sndfct_log := by
  induction n with
  | zero => intro u _; rfl
  | succ m ih =>
    intro u hu
    rw [Function.iterate_succ_apply, ih _ (by rw [sent_idle cfg u (by omega)]),
      sent_idle cfg u (by omega)]

theorem emitted_of_log_eq (s t : State) (h : t.sndfct_log = s.sndfct_log) : emitted s t = [] := by
  simp [emitted, h]

theorem send_in_flight (cfg : Platform) (N : Nat) (hH : cfg.IO_HID_EP_LENGTH = N) (h8 : 8 ≤ N)
    (s : State) (L src : Nat) (hsrc : src ≠ 0) (hL : N - 7 < L) :
    (io_usb_hid_send cfg s L src).G_io_usb_hid_remaining_length = L - (N - 7) ∧
    (io_usb_hid_send cfg s L src).G_io_usb_hid_sequence_number = 1 := by
  rw [send_eq cfg s L src (by omega),
    sent_emit cfg (armed s L src) (by simp only [armed]; omega)]
  simp only [armed, sent_len, if_true, hH, sub_u32_of_le N 7 (by omega)]
  rw [if_pos (by omega)]
  exact ⟨rfl, by norm_num⟩

/-- C20 (receive and send share one session state).  After `io_usb_hid_send` of an APDU of
more than `N - 7` bytes the send is in flight (`remaining_length > 0`).  A call of
`io_usb_hid_receive` with a control chunk (tag `0x00`, `0x01` or `0x02`), or with a data
chunk whose sequence field differs from `sequence_number`, then returns
`IO_USB_APDU_RESET` and clears `remaining_length` and the cursor; the next call of
`io_usb_hid_sent` sets `apdu_state` to `APDU_IDLE`, and no number of calls of
`io_usb_hid_sent` emits another chunk: the rest of the outgoing APDU is never sent. -/
theorem shared_session (cfg : Platform) (N : Nat) (hH : cfg.IO_HID_EP_LENGTH = N) (h8 : 8 ≤ N)
    (s : State) (L src : Nat) (hsrc : src ≠ 0) (hL : N - 7 < L)
    (rng : Nat → Byte) (buffer : Option (List Byte)) (l : Nat) (ab : Option apdu_buffer_t)
    (hchunk : (nth (scratch cfg (io_usb_hid_send cfg s L src) buffer l) 2).val = 0x00 ∨
      (nth (scratch cfg (io_usb_hid_send cfg s L src) buffer l) 2).val = 0x01 ∨
      (nth (scratch cfg (io_usb_hid_send cfg s L src) buffer l) 2).val = 0x02 ∨
      ((nth (scratch cfg (io_usb_hid_send cfg s L src) buffer l) 2).val = 0x05 ∧
        U2BE (scratch cfg (io_usb_hid_send cfg s L src) buffer l) 3
          ≠ (io_usb_hid_send cfg s L src).G_io_usb_hid_sequence_number)) :
    0 < (io_usb_hid_send cfg s L src).G_io_usb_hid_remaining_length ∧
    (io_usb_hid_receive cfg rng (io_usb_hid_send cfg s L src) buffer l ab).status
      = IO_USB_APDU_RESET ∧
    (io_usb_hid_receive cfg rng (io_usb_hid_send cfg s L src) buffer l
      ab).st.G_io_usb_hid_remaining_length = 0 ∧
    (io_usb_hid_receive cfg rng (io_usb_hid_send cfg s L src) buffer l
      ab).st.G_io_usb_hid_current_buffer = 0 ∧
    (io_usb_hid_sent cfg (io_usb_hid_receive cfg rng (io_usb_hid_send cfg s L src) buffer l
      ab).st).apdu_state = APDU_IDLE ∧
    (∀ n, emitted (io_usb_hid_receive cfg rng (io_usb_hid_send cfg s L src) buffer l ab).st
      ((io_usb_hid_sent cfg)^[n]
        (io_usb_hid_receive cfg rng (io_usb_hid_send cfg s L src) buffer l ab).st) = []) := by
  obtain ⟨hrem, _⟩ := send_in_flight cfg N hH h8 s L src hsrc hL
  have hreset : ∃ s1 : State,
      io_usb_hid_receive cfg rng (io_usb_hid_send cfg s L src) buffer l ab = apdu_reset s1 := by
    rcases hchunk with h | h | h | ⟨h5, hne⟩
    · obtain ⟨s1, e, _⟩ := receive_control cfg rng _ buffer l ab (Or.inl h)
      exact ⟨s1, e⟩
    · obtain ⟨s1, e, _⟩ := receive_control cfg rng _ buffer l ab (Or.inr (Or.inl h))
      exact ⟨s1, e⟩
    · obtain ⟨s1, e, _⟩ := receive_control cfg rng _ buffer l ab (Or.inr (Or.inr h))
      exact ⟨s1, e⟩
    · refine ⟨load cfg (io_usb_hid_send cfg s L src) buffer l, ?_⟩
      rw [receive_eq_case_data cfg rng _ buffer l ab h5]
      exact case_data_mismatch cfg _ l ab
        (by rw [(load_fields cfg _ buffer l).2.2.2.1]; exact hne)
  obtain ⟨s1, e⟩ := hreset
  rw [e]
  refine ⟨by rw [hrem]; omega, rfl, rfl, rfl, ?_, ?_⟩
  · rw [sent_idle cfg _ (by simp [apdu_reset, io_usb_hid_init])]
  · intro n
    exact emitted_of_log_eq _ _ (sent_idle_iterate cfg n _ rfl)

/-- Witness of C20: a ping arrives after the first chunk of the three-byte APDU `apdu3` was
sent in 8-byte chunks. -/
theorem shared_session_witness :
    0 < (io_usb_hid_send cfg8 sender8 3 1000).G_io_usb_hid_remaining_length ∧
    (io_usb_hid_receive cfg8 (fun _ => 0) (io_usb_hid_send cfg8 sender8 3 1000)
      (some ping_chunk) 8 dest16).status = IO_USB_APDU_RESET ∧
    (io_usb_hid_receive cfg8 (fun _ => 0) (io_usb_hid_send cfg8 sender8 3 1000)
      (some ping_chunk) 8 dest16).st.G_io_usb_hid_remaining_length = 0 ∧
    (io_usb_hid_receive cfg8 (fun _ => 0) (io_usb_hid_send cfg8 sender8 3 1000)
      (some ping_chunk) 8 dest16).st.G_io_usb_hid_current_buffer = 0 ∧
    (io_usb_hid_sent cfg8 (io_usb_hid_receive cfg8 (fun _ => 0)
      (io_usb_hid_send cfg8 sender8 3 1000) (some ping_chunk) 8 dest16).st).apdu_state
      = APDU_IDLE ∧
    (∀ n, emitted (io_usb_hid_receive cfg8 (fun _ => 0) (io_usb_hid_send cfg8 sender8 3 1000)
        (some ping_chunk) 8 dest16).st
      ((io_usb_hid_sent cfg8)^[n]
        (io_usb_hid_receive cfg8 (fun _ => 0) (io_usb_hid_send cfg8 sender8 3 1000)
          (some ping_chunk) 8 dest16).st) = []) :=
  shared_session cfg8 8 rfl (by decide) sender8 3 1000 (by decide) (by decide) (fun _ => 0)
    (some ping_chunk) 8 dest16 (Or.inr (Or.inr (Or.inl (by decide))))

/-! ## The channel of the replies -/

theorem after_switch_channel (s : State) (c : Option Copy) :
    (after_switch s c).st.G_io_usb_hid_channel = s.G_io_usb_hid_channel := by
  unfold after_switch
  split_ifs <;> rfl

theorem factorize_channel (s : State) (h l : Nat) :
    (factorize s h l).st.G_io_usb_hid_channel = s.G_io_usb_hid_channel := by
  by_cases hz : s.G_io_usb_hid_remaining_length - l = 0
  · rw [factorize_done s h l hz]
  · rw [factorize_more s h l hz]

/-- An accepted first chunk stores its channel field. -/
theorem first_chunk_channel (cfg : Platform) (rng : Nat → Byte) (s : State)
    (buffer : Option (List Byte)) (l : Nat) (ab : Option apdu_buffer_t)
    (hs : s.G_io_usb_hid_sequence_number = 0)
    (htag : (nth (scratch cfg s buffer l) 2).val = 0x05)
    (hst : (io_usb_hid_receive cfg rng s buffer l ab).status ≠ IO_USB_APDU_RESET) :
    (io_usb_hid_receive cfg rng s buffer l ab).st.G_io_usb_hid_channel
      = U2BE (scratch cfg s buffer l) 0 := by
  rcases receive_cases cfg rng s buffer l ab with
    ⟨s1, e, _⟩ | ⟨_, _, _, _, e⟩ | ⟨_, h0, _, _⟩ | ⟨h5, _⟩
  · rw [e] at hst; exact absurd rfl hst
  · rw [e, factorize_channel]; rfl
  · exact absurd hs h0
  · exact absurd htag h5

/-- A call on a reception in progress that is not answered with a reset keeps the channel. -/
theorem inflight_channel (cfg : Platform) (rng : Nat → Byte) (s : State)
    (buffer : Option (List Byte)) (l : Nat) (ab : Option apdu_buffer_t)
    (hs : s.G_io_usb_hid_sequence_number ≠ 0)
    (hst : (io_usb_hid_receive cfg rng s buffer l ab).status ≠ IO_USB_APDU_RESET) :
    (io_usb_hid_receive cfg rng s buffer l ab).st.G_io_usb_hid_channel
      = s.G_io_usb_hid_channel := by
  have hc := (load_fields cfg s buffer l).2.1
  rcases receive_cases cfg rng s buffer l ab with
    ⟨s1, e, _⟩ | ⟨_, h0, _, _, _⟩ | ⟨_, _, _, e⟩ | ⟨_, e⟩
  · rw [e] at hst; exact absurd rfl hst
  · exact absurd h0 hs
  · rw [e, factorize_channel, hc]
  · rw [e, after_switch_channel, hc]

theorem inflight_channel_run (cfg : Platform) (rest : List RxCall) :
    ∀ s : State, s.G_io_usb_hid_sequence_number ≠ 0 → rest ≠ [] →
      (recv_trace cfg s rest).map Rx.status
        = List.replicate (rest.length - 1) IO_USB_APDU_MORE_DATA ++ [IO_USB_APDU_RECEIVED] →
      (recv_final cfg s rest).G_io_usb_hid_channel = s.G_io_usb_hid_channel := by
  induction rest with
  | nil => intro s _ h; exact absurd rfl h
  | cons c cs ih =>
    intro s hs _ hstat
    cases cs with
    | nil =>
      simp only [recv_trace, List.map_cons, List.map_nil, List.length_singleton, Nat.sub_self,
        List.replicate_zero, List.nil_append, List.cons.injEq, and_true] at hstat
      simp only [recv_final]
      exact inflight_channel cfg c.rng s c.buffer c.l c.apdu_buffer hs (by rw [hstat]; decide)
    | cons d ds =>
      simp only [recv_trace, List.map_cons, List.length_cons, Nat.add_sub_cancel,
        List.replicate_succ, List.cons_append, List.cons.injEq] at hstat
      obtain ⟨h1, h2⟩ := hstat
      have hstep := inflight_step cfg c.rng s c.buffer c.l c.apdu_buffer hs h1
      have ih' := ih (io_usb_hid_receive cfg c.rng s c.buffer c.l c.apdu_buffer).st hstep.2.1
        (by simp) (by simpa [recv_trace] using h2)
      simp only [recv_final] at ih' ⊢
      rw [ih', inflight_channel cfg c.rng s c.buffer c.l c.apdu_buffer hs (by rw [h1]; decide)]

theorem sent_chunk_channel (cfg : Platform) (h2 : 2 ≤ cfg.sizeof_ep_buffer) (s : State) :
    U2BE (slice (sent_chunk cfg s) 0 cfg.sizeof_ep_buffer) 0 = s.G_io_usb_hid_channel % 65536 := by
  have b0 : 0 < cfg.sizeof_ep_buffer := by omega
  have b1 : 1 < cfg.sizeof_ep_buffer := by omega
  have e0 : nth (sent_chunk cfg s) 0 = byte ((s.G_io_usb_hid_channel / 256) % 256) := by
    unfold sent_chunk sent_header
    split_ifs <;>
      simp [nth_poke, nth_poke1, b0]
  have e1 : nth (sent_chunk cfg s) 1 = byte (s.G_io_usb_hid_channel % 256) := by
    unfold sent_chunk sent_header
    split_ifs <;>
      simp [nth_poke, nth_poke1, b1]
  unfold U2BE
  rw [nth_slice, nth_slice, if_pos b0, if_pos b1, e0, e1, byte_val, byte_val]
  omega

theorem sent_channel_step (cfg : Platform) (u : State) :
    (io_usb_hid_sent cfg u).G_io_usb_hid_channel = u.G_io_usb_hid_channel ∧
    ((io_usb_hid_sent cfg u).sndfct_log = u.sndfct_log ∨
      (io_usb_hid_sent cfg u).sndfct_log
        = u.sndfct_log ++ [slice (sent_chunk cfg u) 0 cfg.sizeof_ep_buffer]) := by
  by_cases h : u.G_io_usb_hid_remaining_length ≠ 0 ∧ u.G_io_usb_hid_current_buffer ≠ 0
  · rw [sent_emit cfg u h]
    exact ⟨rfl, Or.inr rfl⟩
  · rw [sent_idle cfg u h]
    exact ⟨rfl, Or.inl rfl⟩

theorem sent_channel_iterate (cfg : Platform) (h2 : 2 ≤ cfg.sizeof_ep_buffer) (n : Nat) :
    ∀ u : State, ∃ X : List (List Byte),
      ((io_usb_hid_sent cfg)^[n] u).sndfct_log = u.sndfct_log ++ X ∧
      (∀ ch ∈ X, U2BE ch 0 = u.G_io_usb_hid_channel % 65536) := by
  induction n with
  | zero => intro u; exact ⟨[], by simp, by simp⟩
  | succ m ih =>
    intro u
    obtain ⟨hc, hl⟩ := sent_channel_step cfg u
    obtain ⟨X, hX1, hX2⟩ := ih (io_usb_hid_sent cfg u)
    rw [Function.iterate_succ_apply, hX1]
    rw [hc] at hX2
    rcases hl with hl | hl
    · exact ⟨X, by rw [hl], hX2⟩
    · refine ⟨slice (sent_chunk cfg u) 0 cfg.sizeof_ep_buffer :: X, by rw [hl]; simp, ?_⟩
      intro ch hch
      rcases List.mem_cons.mp hch with h | h
      · rw [h]; exact sent_chunk_channel cfg h2 u
      · exact hX2 ch h

theorem send_all_channel (cfg : Platform) (h2 : 2 ≤ cfg.sizeof_ep_buffer) (t : State)
    (L src n : Nat) :
    ∀ ch ∈ emitted t (send_all cfg t L src n), U2BE ch 0 = t.G_io_usb_hid_channel % 65536 := by
  unfold send_all io_usb_hid_send
  by_cases hL : L ≠ 0
  · rw [if_pos hL, ← Function.iterate_succ_apply]
    obtain ⟨X, hX1, hX2⟩ := sent_channel_iterate cfg h2 (n + 1)
      { t with
        G_io_usb_hid_sequence_number := 0
        G_io_usb_hid_current_buffer := src
        G_io_usb_hid_remaining_length := L
        G_io_usb_hid_total_length := L }
    unfold emitted
    rw [hX1]
    simpa using hX2
  · rw [if_neg hL]
    obtain ⟨X, hX1, hX2⟩ := sent_channel_iterate cfg h2 n t
    unfold emitted
    rw [hX1]
    simpa using hX2

/-- C13 (replies use the command's channel).  Take a reception on an initialised session
that starts with a data chunk (tag `0x05`) and is answered with `IO_USB_APDU_MORE_DATA` until
its last call, answered with `IO_USB_APDU_RECEIVED`.  Then every chunk emitted by a following
`io_usb_hid_send` and any number of calls of `io_usb_hid_sent` carries, big endian on bytes
`[0..2)`, the channel read on bytes `[0..2)` of that first chunk (the scratch buffer holds
at least two bytes).  And a data chunk rejected for a sequence mismatch or an oversized
declared length leaves the retained channel as it was. -/
theorem reply_channel (cfg : Platform) (h2 : 2 ≤ cfg.sizeof_ep_buffer)
    (s0 : State) (c1 : RxCall) (rest : List RxCall)
    (htag : (nth (scratch cfg (io_usb_hid_init s0) c1.buffer c1.l) 2).val = 0x05)
    (hstat : (recv_trace cfg (io_usb_hid_init s0) (c1 :: rest)).map Rx.status
      = List.replicate rest.length IO_USB_APDU_MORE_DATA ++ [IO_USB_APDU_RECEIVED])
    (L src n : Nat)
    (rng : Nat → Byte) (s : State) (buffer : Option (List Byte)) (l : Nat)
    (ab : Option apdu_buffer_t)
    (hdata : (nth (scratch cfg s buffer l) 2).val = 0x05)
    (hrej : U2BE (scratch cfg s buffer l) 3 ≠ s.G_io_usb_hid_sequence_number ∨
      (s.G_io_usb_hid_sequence_number = 0 ∧
        apdu_buf_len cfg ab < U2BE (scratch cfg s buffer l) 5)) :
    (∀ ch ∈ emitted (recv_final cfg (io_usb_hid_init s0) (c1 :: rest))
        (send_all cfg (recv_final cfg (io_usb_hid_init s0) (c1 :: rest)) L src n),
      U2BE ch 0 = U2BE (scratch cfg (io_usb_hid_init s0) c1.buffer c1.l) 0) ∧
    (io_usb_hid_receive cfg rng s buffer l ab).st.G_io_usb_hid_channel
      = s.G_io_usb_hid_channel := by
  refine ⟨?_, ?_⟩
  · have hchan : (recv_final cfg (io_usb_hid_init s0) (c1 :: rest)).G_io_usb_hid_channel
        = U2BE (scratch cfg (io_usb_hid_init s0) c1.buffer c1.l) 0 := by
      cases rest with
      | nil =>
        simp only [recv_trace, List.map_cons, List.map_nil, List.length_nil,
          List.replicate_zero, List.nil_append, List.cons.injEq, and_true] at hstat
        simp only [recv_final]
        exact first_chunk_channel cfg c1.rng _ c1.buffer c1.l c1.apdu_buffer rfl htag
          (by rw [hstat]; decide)
      | cons d ds =>
        simp only [recv_trace, List.map_cons, List.length_cons, List.replicate_succ,
          List.cons_append, List.cons.injEq] at hstat
        obtain ⟨h1, h2'⟩ := hstat
        have hfirst := first_step cfg c1.rng (io_usb_hid_init s0) c1.buffer c1.l c1.apdu_buffer
          rfl rfl h1
        have hrun := inflight_channel_run cfg (d :: ds)
          (io_usb_hid_receive cfg c1.rng (io_usb_hid_init s0) c1.buffer c1.l c1.apdu_buffer).st
          (by rw [hfirst.2.1]; decide) (by simp) (by simpa [recv_trace] using h2')
        simp only [recv_final] at hrun ⊢
        rw [hrun]
        exact first_chunk_channel cfg c1.rng _ c1.buffer c1.l c1.apdu_buffer rfl htag
          (by rw [h1]; decide)
    intro ch hch
    rw [send_all_channel cfg h2 _ L src n ch hch, hchan]
    exact Nat.mod_eq_of_lt (U2BE_lt _ 0)
  · have hc := (load_fields cfg s buffer l).2.1
    have hq := (load_fields cfg s buffer l).2.2.2.1
    have hep : (load cfg s buffer l).G_io_usb_ep_buffer = scratch cfg s buffer l := rfl
    rw [receive_eq_case_data cfg rng s buffer l ab hdata]
    by_cases hm : U2BE (scratch cfg s buffer l) 3 = s.G_io_usb_hid_sequence_number
    · rcases hrej with h | ⟨h0, hbig⟩
      · exact absurd hm h
      · rw [case_data_oversize cfg _ l ab (by rw [hep, hq]; exact hm) (by rw [hq]; exact h0)
          (by rw [hep]; exact hbig)]
        exact hc
    · rw [case_data_mismatch cfg _ l ab (by rw [hep, hq]; exact hm)]
      exact hc

/-- Witness of C13: the one-chunk APDU `single_chunk` arrives on channel `0x1234`, then three
bytes are sent back; and `oversize_chunk` is rejected on an idle session. -/
theorem reply_channel_witness :
    (∀ ch ∈ emitted (recv_final cfg8 (io_usb_hid_init (zero_state cfg8)) (single_call :: []))
        (send_all cfg8 (recv_final cfg8 (io_usb_hid_init (zero_state cfg8)) (single_call :: []))
          3 1000 1),
      U2BE ch 0
        = U2BE (scratch cfg8 (io_usb_hid_init (zero_state cfg8)) single_call.buffer
            single_call.l) 0) ∧
    (io_usb_hid_receive cfg8 (fun _ => 0) (zero_state cfg8) (some oversize_chunk) 8
      dest16).st.G_io_usb_hid_channel = (zero_state cfg8).G_io_usb_hid_channel :=
  reply_channel cfg8 (by decide) (zero_state cfg8) single_call [] (by decide) (by decide)
    3 1000 1 (fun _ => 0) (zero_state cfg8) (some oversize_chunk) 8 dest16 (by decide)
    (Or.inr ⟨by decide, by decide⟩)

end OsIoUsb
